import Mathlib

/-!
Verification of the shuttle reverse proxy / load balancer core.

This file shallowly embeds the Go sources (service.go, the registry file,
the client config package, utils.go) into Lean and proves or refutes the
frozen claims about them.

Modelling conventions:
* Go `int` and `int64` fields are modelled as `Int`; `time.Duration`
  values are kept in the unit they are written in (milliseconds), since
  every write multiplies a millisecond count by `time.Millisecond` and
  every read divides by it, which is a bijection on whole-millisecond
  durations.
* Go slices and maps that the code compares with `nil` are modelled as
  `Option (List _)` (`none` = nil); `reflect.DeepEqual` on such values is
  structural equality, which distinguishes nil from empty exactly as Go
  does.  Go maps are modelled as association lists; map iteration order
  never matters for the claims below.
* Go string comparison (`sort.Strings`, `<`) is byte-wise; on the
  character lists underlying Lean strings we model it code-point-wise,
  which agrees with byte-wise comparison on valid UTF-8.
* In-place slice mutation through aliased slice headers (`sort.Strings`,
  `filterEmpty`) is modelled functionally; where the difference is
  observable it is noted at the definition.
-/

/-! ## Go-level helpers: strings, slices, association lists -/

/-- Code-point comparison of character lists, the order `sort.Strings`
uses (byte-wise comparison of UTF-8 strings). -/
def clCmp : List Char → List Char → Ordering
  | [], [] => .eq
  | [], _ :: _ => .lt
  | _ :: _, [] => .gt
  | a :: as, b :: bs =>
    if a.toNat < b.toNat then .lt
    else if b.toNat < a.toNat then .gt
    else clCmp as bs

/-- Go string comparison as a three-way compare. -/
def strCmp (a b : String) : Ordering := clCmp a.data b.data

/-- Go `a < b` on strings. -/
def strLtB (a b : String) : Bool := strCmp a b = Ordering.lt

/-- Go `a <= b` on strings, the order `sort.Strings` establishes. -/
def strLeB (a b : String) : Bool := strCmp a b ≠ Ordering.gt

/-- The propositional form of `strLeB`, used for sortedness statements. -/
def strLeP (a b : String) : Prop := strLeB a b = true

instance : DecidableRel strLeP := fun a b => by
  unfold strLeP
  infer_instance

/-- Model of Go `sort.Strings` (the resulting order; Go sorts in place). -/
def sortStr (l : List String) : List String := List.insertionSort strLeP l

/-- Model of Go `len(strings.TrimSpace(s)) == 0`: every character of `s`
is whitespace.  (Go `unicode.IsSpace` and Lean `Char.isWhitespace` agree
on the characters appearing in this development.) -/
def strBlank (s : String) : Bool := s.data.all Char.isWhitespace

/-- utils.go `filterEmpty`: remove whitespace-only strings from a slice.
The Go function compacts the slice in place and returns the kept prefix;
we model the returned value.  (The in-place compaction also garbles the
aliased original slice when blank entries are present; the theorems below
only traverse configurations without blank virtual-host names, on which
the compaction is the identity.) -/
def filterEmpty (a : List String) : List String :=
  a.filter (fun s => !strBlank s)

/-- Go `strings.HasSuffix`. -/
def goHasSuffix (s suffix : String) : Bool :=
  List.isSuffixOf suffix.data s.data

/-- Go `addr[strings.Index(addr, ":")+1:]` on the character list: the part
after the first colon, or the whole string when there is no colon
(`strings.Index` returns -1, so the slice starts at 0). -/
def afterColonList : List Char → List Char
  | [] => []
  | c :: cs => if c = ':' then cs else afterColonList cs

/-- The admin listener's port string, as UpdateConfig computes it. -/
def afterColon (s : String) : String :=
  if s.data.any (· = ':') then ⟨afterColonList s.data⟩ else s

/-- A Go slice that the code compares against `nil`: `none` is the nil
slice, `some l` a non-nil slice with elements `l`. -/
abbrev GoSlice (α : Type) : Type := Option (List α)

/-- The elements of a Go slice; a nil slice ranges over nothing. -/
def GoSlice.toList {α : Type} : GoSlice α → List α
  | none => []
  | some l => l

/-- Go `s != nil` for a slice. -/
def GoSlice.notNil {α : Type} : GoSlice α → Bool
  | none => false
  | some _ => true

/-- Map a function over the elements of a Go slice. -/
def GoSlice.map {α β : Type} (f : α → β) : GoSlice α → GoSlice β
  | none => none
  | some l => some (l.map f)

/-- `sort.Strings` on a possibly-nil slice (sorting nil is a no-op). -/
def gsSort : GoSlice String → GoSlice String
  | none => none
  | some l => some (sortStr l)

/-- `filterEmpty` applied to a possibly-nil slice: the loop over a nil
slice keeps it nil. -/
def gsFilterEmpty : GoSlice String → GoSlice String
  | none => none
  | some l => some (filterEmpty l)

/-- Lookup in an association list, the model of Go map indexing. -/
def alookup {α : Type} : List (String × α) → String → Option α
  | [], _ => none
  | (k, v) :: rest, key => if k = key then some v else alookup rest key

/-- Go map assignment `m[k] = v`: replace the entry in place, or append a
new one. -/
def aset {α : Type} : List (String × α) → String → α → List (String × α)
  | [], key, v => [(key, v)]
  | (k, w) :: rest, key, v =>
    if k = key then (k, v) :: rest else (k, w) :: aset rest key v

/-- Go `delete(m, k)`. -/
def aerase {α : Type} : List (String × α) → String → List (String × α)
  | [], _ => []
  | (k, v) :: rest, key =>
    if k = key then rest else (k, v) :: aerase rest key

/-- The sorted linear-merge diff loop of updateVHosts, as a function of
the remaining iteration budget (the loop consumes at least one element
of one list per iteration, so `olds.length + news.length` iterations
always suffice); returns the relative complements (remove, add). -/
def diffMergeGo : Nat → List String → List String → List String × List String
  | _, [], news => ([], news)
  | _, o :: olds, [] => (o :: olds, [])
  | 0, olds, news => (olds, news)
  | fuel + 1, o :: olds, n :: news =>
    if o ≠ n then
      if strLtB o n = true then
        let p := diffMergeGo fuel olds (n :: news)
        (o :: p.1, p.2)
      else
        let p := diffMergeGo fuel (o :: olds) news
        (p.1, n :: p.2)
    else
      diffMergeGo fuel olds news

/-- The diff of updateVHosts: `remove` (in old, not in new) and `add`
(in new, not in old), computed by linear merge over the sorted lists. -/
def diffMerge (olds news : List String) : List String × List String :=
  diffMergeGo (olds.length + news.length) olds news

/-! ## The client configuration package (src/unnamed/part_001) -/

/-- Balancing scheme and default constants from the client package. -/
def RoundRobin : String := "RR"

def LeastConn : String := "LC"

def DefaultTimeout : Int := 2000

def DefaultCheckInterval : Int := 5000

def DefaultNet : String := "tcp"

def DefaultWeight : Int := 1

def DefaultBalance : String := RoundRobin

def DefaultFall : Int := 2

def DefaultRise : Int := 2

/-- client.BackendConfig. -/
structure BackendConfig where
  name : String
  addr : String
  network : String
  checkAddr : String
  weight : Int
  deriving DecidableEq, Repr

instance : Inhabited BackendConfig := ⟨⟨"", "", "", "", 0⟩⟩

/-- BackendConfig.SetDefaults: a copy with default weight and network. -/
def BackendConfig.SetDefaults (b : BackendConfig) : BackendConfig :=
  let b := if b.weight = 0 then { b with weight := DefaultWeight } else b
  let b := if b.network = "" then { b with network := DefaultNet } else b
  b

/-- BackendConfig.Equal: structural equality after defaults. -/
def BackendConfig.Equal (b other : BackendConfig) : Bool :=
  b.SetDefaults = other.SetDefaults

/-- client.ServiceConfig.  `virtualHosts`, `errorPages` and `backends` are
nil-able (omitempty) and are modelled as `GoSlice`s; the `error_pages`
map is modelled as an association list. -/
structure ServiceConfig where
  name : String
  addr : String
  network : String
  balance : String
  checkInterval : Int
  fall : Int
  rise : Int
  clientTimeout : Int
  serverTimeout : Int
  dialTimeout : Int
  httpsRedirect : Bool
  virtualHosts : GoSlice String
  errorPages : GoSlice (String × List Int)
  backends : GoSlice BackendConfig
  maintenanceMode : Bool
  deriving DecidableEq, Repr

/-- The zero value of a ServiceConfig (all fields unset). -/
def ServiceConfig.zero : ServiceConfig :=
  { name := ""
    addr := ""
    network := ""
    balance := ""
    checkInterval := 0
    fall := 0
    rise := 0
    clientTimeout := 0
    serverTimeout := 0
    dialTimeout := 0
    httpsRedirect := false
    virtualHosts := none
    errorPages := none
    backends := none
    maintenanceMode := false }

instance : Inhabited ServiceConfig := ⟨ServiceConfig.zero⟩

/-- ServiceConfig.SetDefaults: a copy with unset fields defaulted. -/
def ServiceConfig.SetDefaults (s : ServiceConfig) : ServiceConfig :=
  let s := if s.balance = "" then { s with balance := DefaultBalance } else s
  let s := if s.checkInterval = 0 then { s with checkInterval := DefaultCheckInterval } else s
  let s := if s.clientTimeout = 0 then { s with clientTimeout := DefaultTimeout } else s
  let s := if s.serverTimeout = 0 then { s with serverTimeout := DefaultTimeout } else s
  let s := if s.rise = 0 then { s with rise := DefaultRise } else s
  let s := if s.fall = 0 then { s with fall := DefaultFall } else s
  let s := if s.network = "" then { s with network := DefaultNet } else s
  s

/-- ServiceConfig.Equal: nil out the backends, apply defaults, sort the
receiver's VirtualHosts (the source sorts `s.VirtualHosts` twice and
never sorts `other`'s), then `reflect.DeepEqual` on the rest — which,
despite the FIXME comment in the source, does compare `VirtualHosts` and
`ErrorPages`. -/
def ServiceConfig.Equal (s other : ServiceConfig) : Bool :=
  let s := { s with backends := none }
  let other := { other with backends := none }
  let s := s.SetDefaults
  let other := other.SetDefaults
  let s := { s with virtualHosts := gsSort s.virtualHosts }
  let s := { s with virtualHosts := gsSort s.virtualHosts }
  s = other

/-- ServiceConfig.Merge: merge an update `cfg` onto the current config
`s`.  String and numeric fields override only when set; the nil-able
slices override only when non-nil; but `Name`, `HTTPSRedirect` and
`MaintenanceMode` are copied from `cfg` unconditionally. -/
def ServiceConfig.Merge (s cfg : ServiceConfig) : ServiceConfig :=
  let merged := s
  let merged := { merged with name := cfg.name }
  let merged := if cfg.addr ≠ "" then { merged with addr := cfg.addr } else merged
  let merged := if cfg.network ≠ "" then { merged with network := cfg.network } else merged
  let merged := if cfg.balance ≠ "" then { merged with balance := cfg.balance } else merged
  let merged := if cfg.checkInterval ≠ 0 then { merged with checkInterval := cfg.checkInterval } else merged
  let merged := if cfg.fall ≠ 0 then { merged with fall := cfg.fall } else merged
  let merged := if cfg.rise ≠ 0 then { merged with rise := cfg.rise } else merged
  let merged := if cfg.clientTimeout ≠ 0 then { merged with clientTimeout := cfg.clientTimeout } else merged
  let merged := if cfg.serverTimeout ≠ 0 then { merged with serverTimeout := cfg.serverTimeout } else merged
  let merged := if cfg.dialTimeout ≠ 0 then { merged with dialTimeout := cfg.dialTimeout } else merged
  let merged := if cfg.virtualHosts.notNil then { merged with virtualHosts := cfg.virtualHosts } else merged
  let merged := if cfg.errorPages.notNil then { merged with errorPages := cfg.errorPages } else merged
  let merged := if cfg.backends.notNil then { merged with backends := cfg.backends } else merged
  let merged := { merged with httpsRedirect := cfg.httpsRedirect }
  let merged := { merged with maintenanceMode := cfg.maintenanceMode }
  merged

/-- client.Config: the global defaults plus the service list. -/
structure Config where
  balance : String
  checkInterval : Int
  fall : Int
  rise : Int
  clientTimeout : Int
  serverTimeout : Int
  dialTimeout : Int
  httpsRedirect : Bool
  services : List ServiceConfig
  deriving DecidableEq, Repr

/-- The zero value of the global Config. -/
def Config.zero : Config :=
  { balance := ""
    checkInterval := 0
    fall := 0
    rise := 0
    clientTimeout := 0
    serverTimeout := 0
    dialTimeout := 0
    httpsRedirect := false
    services := [] }

/-! ## Claim C3: which fields does Merge preserve? -/

/-- A Go slice is non-nil exactly when it is not `none`. -/
theorem GoSlice.notNil_iff {α : Type} (x : GoSlice α) : x.notNil = true ↔ x ≠ none := by
  cases x <;> simp [GoSlice.notNil]

/-- Concrete current config whose boolean flags are set. -/
def c3cur : ServiceConfig :=
  { ServiceConfig.zero with
      name := "svc"
      addr := "127.0.0.1:2000"
      httpsRedirect := true
      maintenanceMode := true }

/-- Concrete update config with every field unset (the zero value). -/
def c3upd : ServiceConfig := ServiceConfig.zero

/-- Claim C3 is false as stated: merging an update whose `HTTPSRedirect`
and `MaintenanceMode` are unset (false) onto a config where both flags
are true clears both flags, because Merge copies the booleans from the
update unconditionally. -/
theorem c3_merge_flags_counterexample :
    c3cur.httpsRedirect = true ∧ c3cur.maintenanceMode = true ∧
    c3upd.httpsRedirect = false ∧ c3upd.maintenanceMode = false ∧
    (c3cur.Merge c3upd).httpsRedirect = false ∧
    (c3cur.Merge c3upd).maintenanceMode = false := by
  decide

/-- Evaluation of Merge at the `name` field. -/
theorem mergeEval_name (s cfg : ServiceConfig) : (s.Merge cfg).name = cfg.name := by
  simp only [ServiceConfig.Merge, apply_ite ServiceConfig.name, ite_self]

/-- Evaluation of Merge at the `addr` field. -/
theorem mergeEval_addr (s cfg : ServiceConfig) :
    (s.Merge cfg).addr = if cfg.addr ≠ "" then cfg.addr else s.addr := by
  simp only [ServiceConfig.Merge, apply_ite ServiceConfig.addr, ite_self]

/-- Evaluation of Merge at the `network` field. -/
theorem mergeEval_network (s cfg : ServiceConfig) :
    (s.Merge cfg).network = if cfg.network ≠ "" then cfg.network else s.network := by
  simp only [ServiceConfig.Merge, apply_ite ServiceConfig.network, ite_self]

/-- Evaluation of Merge at the `balance` field. -/
theorem mergeEval_balance (s cfg : ServiceConfig) :
    (s.Merge cfg).balance = if cfg.balance ≠ "" then cfg.balance else s.balance := by
  simp only [ServiceConfig.Merge, apply_ite ServiceConfig.balance, ite_self]

/-- Evaluation of Merge at the `checkInterval` field. -/
theorem mergeEval_checkInterval (s cfg : ServiceConfig) :
    (s.Merge cfg).checkInterval = if cfg.checkInterval ≠ 0 then cfg.checkInterval else s.checkInterval := by
  simp only [ServiceConfig.Merge, apply_ite ServiceConfig.checkInterval, ite_self]

/-- Evaluation of Merge at the `fall` field. -/
theorem mergeEval_fall (s cfg : ServiceConfig) :
    (s.Merge cfg).fall = if cfg.fall ≠ 0 then cfg.fall else s.fall := by
  simp only [ServiceConfig.Merge, apply_ite ServiceConfig.fall, ite_self]

/-- Evaluation of Merge at the `rise` field. -/
theorem mergeEval_rise (s cfg : ServiceConfig) :
    (s.Merge cfg).rise = if cfg.rise ≠ 0 then cfg.rise else s.rise := by
  simp only [ServiceConfig.Merge, apply_ite ServiceConfig.rise, ite_self]

/-- Evaluation of Merge at the `clientTimeout` field. -/
theorem mergeEval_clientTimeout (s cfg : ServiceConfig) :
    (s.Merge cfg).clientTimeout = if cfg.clientTimeout ≠ 0 then cfg.clientTimeout else s.clientTimeout := by
  simp only [ServiceConfig.Merge, apply_ite ServiceConfig.clientTimeout, ite_self]

/-- Evaluation of Merge at the `serverTimeout` field. -/
theorem mergeEval_serverTimeout (s cfg : ServiceConfig) :
    (s.Merge cfg).serverTimeout = if cfg.serverTimeout ≠ 0 then cfg.serverTimeout else s.serverTimeout := by
  simp only [ServiceConfig.Merge, apply_ite ServiceConfig.serverTimeout, ite_self]

/-- Evaluation of Merge at the `dialTimeout` field. -/
theorem mergeEval_dialTimeout (s cfg : ServiceConfig) :
    (s.Merge cfg).dialTimeout = if cfg.dialTimeout ≠ 0 then cfg.dialTimeout else s.dialTimeout := by
  simp only [ServiceConfig.Merge, apply_ite ServiceConfig.dialTimeout, ite_self]

/-- Evaluation of Merge at the `virtualHosts` field. -/
theorem mergeEval_virtualHosts (s cfg : ServiceConfig) :
    (s.Merge cfg).virtualHosts =
      if cfg.virtualHosts.notNil = true then cfg.virtualHosts else s.virtualHosts := by
  simp only [ServiceConfig.Merge, apply_ite ServiceConfig.virtualHosts, ite_self]

/-- Evaluation of Merge at the `errorPages` field. -/
theorem mergeEval_errorPages (s cfg : ServiceConfig) :
    (s.Merge cfg).errorPages =
      if cfg.errorPages.notNil = true then cfg.errorPages else s.errorPages := by
  simp only [ServiceConfig.Merge, apply_ite ServiceConfig.errorPages, ite_self]

/-- Evaluation of Merge at the `backends` field. -/
theorem mergeEval_backends (s cfg : ServiceConfig) :
    (s.Merge cfg).backends =
      if cfg.backends.notNil = true then cfg.backends else s.backends := by
  simp only [ServiceConfig.Merge, apply_ite ServiceConfig.backends, ite_self]

/-- Evaluation of Merge at the `httpsRedirect` field. -/
theorem mergeEval_httpsRedirect (s cfg : ServiceConfig) :
    (s.Merge cfg).httpsRedirect = cfg.httpsRedirect := by
  simp only [ServiceConfig.Merge, apply_ite ServiceConfig.httpsRedirect, ite_self]

/-- Evaluation of Merge at the `maintenanceMode` field. -/
theorem mergeEval_maintenanceMode (s cfg : ServiceConfig) :
    (s.Merge cfg).maintenanceMode = cfg.maintenanceMode := by
  simp only [ServiceConfig.Merge, apply_ite ServiceConfig.maintenanceMode, ite_self]

/-- Claim C3, amended: every string- or numeric-valued field and every
nil-able slice field of the update that is unset leaves the merged value
at the current config's value, and only set fields override; but `Name`,
`HTTPSRedirect` and `MaintenanceMode` are always taken from the update,
so merging an update with `HTTPSRedirect=false` or
`MaintenanceMode=false` onto a config where the flag is true clears the
flag. -/
theorem c3_merge_unset_fields_amended (s cfg : ServiceConfig) :
    (s.Merge cfg).addr = (if cfg.addr = "" then s.addr else cfg.addr) ∧
    (s.Merge cfg).network = (if cfg.network = "" then s.network else cfg.network) ∧
    (s.Merge cfg).balance = (if cfg.balance = "" then s.balance else cfg.balance) ∧
    (s.Merge cfg).checkInterval = (if cfg.checkInterval = 0 then s.checkInterval else cfg.checkInterval) ∧
    (s.Merge cfg).fall = (if cfg.fall = 0 then s.fall else cfg.fall) ∧
    (s.Merge cfg).rise = (if cfg.rise = 0 then s.rise else cfg.rise) ∧
    (s.Merge cfg).clientTimeout = (if cfg.clientTimeout = 0 then s.clientTimeout else cfg.clientTimeout) ∧
    (s.Merge cfg).serverTimeout = (if cfg.serverTimeout = 0 then s.serverTimeout else cfg.serverTimeout) ∧
    (s.Merge cfg).dialTimeout = (if cfg.dialTimeout = 0 then s.dialTimeout else cfg.dialTimeout) ∧
    (s.Merge cfg).virtualHosts = (if cfg.virtualHosts = none then s.virtualHosts else cfg.virtualHosts) ∧
    (s.Merge cfg).errorPages = (if cfg.errorPages = none then s.errorPages else cfg.errorPages) ∧
    (s.Merge cfg).backends = (if cfg.backends = none then s.backends else cfg.backends) ∧
    (s.Merge cfg).name = cfg.name ∧
    (s.Merge cfg).httpsRedirect = cfg.httpsRedirect ∧
    (s.Merge cfg).maintenanceMode = cfg.maintenanceMode := by
  refine ⟨?_, ?_, ?_, ?_, ?_, ?_, ?_, ?_, ?_, ?_, ?_, ?_, ?_, ?_, ?_⟩
  case _ => rw [mergeEval_addr, ite_not]
  case _ => rw [mergeEval_network, ite_not]
  case _ => rw [mergeEval_balance, ite_not]
  case _ => rw [mergeEval_checkInterval, ite_not]
  case _ => rw [mergeEval_fall, ite_not]
  case _ => rw [mergeEval_rise, ite_not]
  case _ => rw [mergeEval_clientTimeout, ite_not]
  case _ => rw [mergeEval_serverTimeout, ite_not]
  case _ => rw [mergeEval_dialTimeout, ite_not]
  case _ => rw [mergeEval_virtualHosts]; cases cfg.virtualHosts <;> simp [GoSlice.notNil]
  case _ => rw [mergeEval_errorPages]; cases cfg.errorPages <;> simp [GoSlice.notNil]
  case _ => rw [mergeEval_backends]; cases cfg.backends <;> simp [GoSlice.notNil]
  case _ => exact mergeEval_name s cfg
  case _ => exact mergeEval_httpsRedirect s cfg
  case _ => exact mergeEval_maintenanceMode s cfg

/-! ## Claim C9: ServiceConfig.Equal does not ignore VirtualHosts -/

/-- First config for claim C9: fully defaulted, one virtual host. -/
def c9a : ServiceConfig :=
  { name := "svc"
    addr := "127.0.0.1:2000"
    network := "tcp"
    balance := "RR"
    checkInterval := 5000
    fall := 2
    rise := 2
    clientTimeout := 2000
    serverTimeout := 2000
    dialTimeout := 2000
    httpsRedirect := false
    virtualHosts := some [("vhost.example.com")]
    errorPages := none
    backends := none
    maintenanceMode := false }

/-- Second config for claim C9: identical except no virtual hosts. -/
def c9b : ServiceConfig := { c9a with virtualHosts := none }

/-- Claim C9 is false on the code: `c9a` and `c9b` differ only in their
`VirtualHosts` field (erasing that field makes them identical), yet
`ServiceConfig.Equal` returns false, because the final
`reflect.DeepEqual` compares `VirtualHosts` and `ErrorPages` despite the
FIXME comment claiming they are ignored. -/
theorem c9_equal_compares_vhosts :
    ({ c9a with virtualHosts := none } : ServiceConfig) = { c9b with virtualHosts := none } ∧
    c9a.Equal c9b = false := by
  decide

/-! ## Errors of the registry and service layer (service.go, registry) -/

/-- The distinct error values the mutating operations can return. -/
inductive GoErr where
  | invalidServiceUpdate
  | noService
  | noBackend
  | duplicateService
  | unknownNetwork (network : String)
  | portConflict (name port : String)
  deriving DecidableEq, Repr

/-! ## Backend (fields as used by src/service.go) -/

/-- The Backend runtime object.  Only the fields read or written by the
code under src/ are modelled: identity and address fields, `Weight`, the
health flag `up`, and the timeouts `Service.add` inherits from the
owning service (kept in milliseconds, see the header note). -/
structure Backend where
  name : String
  addr : String
  checkAddr : String
  network : String
  weight : Int
  up : Bool
  rwTimeout : Int
  dialTimeout : Int
  checkInterval : Int
  deriving DecidableEq, Repr

instance : Inhabited Backend := ⟨⟨"", "", "", "", 0, false, 0, 0, 0⟩⟩

/-- Modelled from the spec: `NewBackend`, whose body is in a source file
not present under src/.  Spec 3 and 6: a Backend carries the fields of
its BackendConfig, with `weight` defaulting to 1 and `network` to tcp;
health state starts Up and the inherited timeouts are filled in by
`Service.add`. -/
def NewBackend (cfg : BackendConfig) : Backend :=
  let b : Backend :=
    { name := cfg.name
      addr := cfg.addr
      checkAddr := cfg.checkAddr
      network := cfg.network
      weight := cfg.weight
      up := true
      rwTimeout := 0
      dialTimeout := 0
      checkInterval := 0 }
  let b := if b.weight = 0 then { b with weight := DefaultWeight } else b
  let b := if b.network = "" then { b with network := DefaultNet } else b
  b

/-- Backend.Config: the configuration snapshot of a backend. -/
def Backend.config (b : Backend) : BackendConfig :=
  { name := b.name
    addr := b.addr
    network := b.network
    checkAddr := b.checkAddr
    weight := b.weight }

/-! ## Service (src/service.go) -/

/-- The Service runtime object.  Listener handles, the reverse proxy and
the error-page cache are I/O resources and are not part of the state the
claims are about; `errPagesCfg` keeps the configured error-page map.
`lastBackend`/`lastCount` are the weighted-round-robin state (Go zero
values 0/0 at creation). -/
structure Service where
  name : String
  addr : String
  httpsRedirect : Bool
  virtualHosts : GoSlice String
  backends : List Backend
  balance : String
  checkInterval : Int
  fall : Int
  rise : Int
  clientTimeout : Int
  serverTimeout : Int
  dialTimeout : Int
  network : String
  maintenanceMode : Bool
  errPagesCfg : GoSlice (String × List Int)
  lastBackend : Nat
  lastCount : Int
  deriving DecidableEq, Repr

instance : Inhabited Service :=
  ⟨⟨"", "", false, none, [], "", 0, 0, 0, 0, 0, 0, "", false, none, 0, 0⟩⟩

/-- Go `s[:3]` on a string, used for the network-family comparison in
`Service.add`.  (Go panics when the string is shorter than three bytes;
the networks compared by the claims are tcp*/udp* strings.) -/
def strTake3 (s : String) : String := ⟨s.data.take 3⟩

/-- Service.add: add or replace a Backend.  The backend inherits the
service's timeouts and is marked up.  When the network family of the
backend differs from the service's the code only *logs* an error
("ERROR: backend %s cannot use network ...") — the returned Bool is true
exactly when that log line is emitted — and then installs the backend
regardless, replacing an existing backend of the same name in place or
appending a new one. -/
def Service.add (s : Service) (backend : Backend) : Service × Bool :=
  let backend :=
    { backend with
        up := true
        rwTimeout := s.serverTimeout
        dialTimeout := s.dialTimeout
        checkInterval := s.checkInterval }
  let familyMismatch := strTake3 s.network ≠ strTake3 backend.network
  match s.backends.findIdx? (fun b => b.name = backend.name) with
  | some i => ({ s with backends := s.backends.set i backend }, familyMismatch)
  | none => ({ s with backends := s.backends ++ [backend] }, familyMismatch)

/-- Service.remove: remove a Backend by name.  The source swaps the
found entry with the last entry and truncates, so removal reorders the
slice.  Returns whether a backend was removed. -/
def Service.removeBackend (s : Service) (name : String) : Service × Bool :=
  match s.backends.findIdx? (fun b => b.name = name) with
  | none => (s, false)
  | some i =>
    let bs := s.backends.set i (s.backends.getLastD default)
    ({ s with backends := bs.dropLast }, true)

/-- NewService: construct a Service from a ServiceConfig, apply the
creation-time defaults, then add each configured backend via
`Service.add`.  (The balance switch in the source only selects the
`next` closure; the `Balance` string itself is stored unchanged.) -/
def NewService (cfg : ServiceConfig) : Service :=
  let s : Service :=
    { name := cfg.name
      addr := cfg.addr
      balance := cfg.balance
      checkInterval := cfg.checkInterval
      fall := cfg.fall
      rise := cfg.rise
      httpsRedirect := cfg.httpsRedirect
      virtualHosts := cfg.virtualHosts
      clientTimeout := cfg.clientTimeout
      serverTimeout := cfg.serverTimeout
      dialTimeout := cfg.dialTimeout
      errPagesCfg := cfg.errorPages
      network := cfg.network
      maintenanceMode := cfg.maintenanceMode
      backends := []
      lastBackend := 0
      lastCount := 0 }
  let s := if s.checkInterval = 0 then { s with checkInterval := DefaultCheckInterval } else s
  let s := if s.rise = 0 then { s with rise := DefaultRise } else s
  let s := if s.fall = 0 then { s with fall := DefaultFall } else s
  let s := if s.network = "" then { s with network := DefaultNet } else s
  (cfg.backends.toList).foldl (fun s b => (s.add (NewBackend b)).1) s

/-- Service.UpdateConfig: reject a config whose `ClientTimeout` or
`Addr` differs from the running service's (the Go comparison is between
durations, `s.ClientTimeout != time.Duration(cfg.ClientTimeout) *
time.Millisecond`, which on whole-millisecond durations is exactly the
millisecond comparison used here), then overwrite the mutable fields. -/
def Service.updateConfig (s : Service) (cfg : ServiceConfig) : Except GoErr Service :=
  if s.clientTimeout ≠ cfg.clientTimeout then .error .invalidServiceUpdate
  else if s.addr ≠ "" ∧ s.addr ≠ cfg.addr then .error .invalidServiceUpdate
  else
    let s :=
      { s with
          checkInterval := cfg.checkInterval
          fall := cfg.fall
          rise := cfg.rise
          serverTimeout := cfg.serverTimeout
          dialTimeout := cfg.dialTimeout
          httpsRedirect := cfg.httpsRedirect
          maintenanceMode := cfg.maintenanceMode }
    let s := if s.balance ≠ cfg.balance then { s with balance := cfg.balance } else s
    .ok s

/-- Service.config: the configuration snapshot of a running service.
`config.Backends` is built by appending to a nil slice, so it is nil
exactly when the service has no backends. -/
def Service.config (s : Service) : ServiceConfig :=
  { name := s.name
    addr := s.addr
    virtualHosts := s.virtualHosts
    httpsRedirect := s.httpsRedirect
    balance := s.balance
    checkInterval := s.checkInterval
    fall := s.fall
    rise := s.rise
    clientTimeout := s.clientTimeout
    serverTimeout := s.serverTimeout
    dialTimeout := s.dialTimeout
    errorPages := s.errPagesCfg
    network := s.network
    maintenanceMode := s.maintenanceMode
    backends := if s.backends.isEmpty then none else some (s.backends.map Backend.config) }

/-- Service.Available: the number of backends marked up; a service in
maintenance mode reports zero available backends. -/
def Service.availableCount (s : Service) : Nat :=
  if s.maintenanceMode then 0 else (s.backends.filter (fun b => b.up)).length

/-! ## Claim C1: ServeHTTP and the HTTPS redirect -/

/-- An HTTP request as ServeHTTP consults it: whether `r.TLS != nil`,
the header map, the Host and the RequestURI. -/
structure HTTPRequest where
  tls : Bool
  headers : List (String × String)
  host : String
  requestURI : String
  deriving DecidableEq, Repr

/-- Go `r.Header.Get(key)`: the value, or the empty string when the
header is absent. -/
def HTTPRequest.headerGet (r : HTTPRequest) (key : String) : String :=
  (alookup r.headers key).getD ""

/-- The externally visible outcome of Service.ServeHTTP: a 301 redirect,
a 503 maintenance response (with the configured error page if any), or
the handoff to the reverse-proxy collaborator. -/
inductive ServeAction where
  | redirect (status : Nat) (location : String)
  | unavailable
  | proxy
  deriving DecidableEq, Repr

/-- Service.ServeHTTP.  The redirect condition is the source's
`r.TLS != nil || r.Header.Get("X-Forwarded-Proto") != "https"`, nested
under `if s.HTTPSRedirect`; both nested ifs are written here as one
conjunction, which falls through to the maintenance check in exactly the
same cases as the source. -/
def Service.serveHTTP (s : Service) (r : HTTPRequest) : ServeAction :=
  if s.httpsRedirect ∧ (r.tls ∨ r.headerGet ("X-Forwarded-Proto") ≠ "https") then
    .redirect 301 ("https://" ++ r.host ++ r.requestURI)
  else if s.maintenanceMode then
    .unavailable
  else
    .proxy

/-- A service with HTTPSRedirect set. -/
def c1svc : Service :=
  NewService
    { ServiceConfig.zero with
        name := "web"
        addr := "127.0.0.1:2000"
        httpsRedirect := true }

/-- A TLS request (r.TLS != nil) without an X-Forwarded-Proto header. -/
def c1req : HTTPRequest :=
  { tls := true
    headers := []
    host := "example.com"
    requestURI := "/path" }

/-- Claim C1 fails on the code: on a service with HTTPSRedirect set, a
TLS request carrying no X-Forwarded-Proto header *is* answered with a
301 redirect, because the source condition is
`r.TLS != nil || header != "https"` — true for every TLS request —
where the claim (and the config documentation) require
`neither TLS nor header`. -/
theorem c1_serveHTTP_redirects_tls_request :
    c1svc.httpsRedirect = true ∧
    c1req.tls = true ∧
    c1svc.serveHTTP c1req = .redirect 301 ("https://example.com/path") := by
  decide

/-! ## Claim C2: the UDP connection-tracking table -/

/-- The connection-track key: `(IP-high-64, IP-low-64, port)`. -/
structure ConnTrackKey where
  ipHigh : Nat
  ipLow : Nat
  port : Int
  deriving DecidableEq, Repr

/-- Big-endian value of a byte list (`binary.BigEndian.Uint32/Uint64`). -/
def beBytes (bytes : List Nat) : Nat :=
  bytes.foldl (fun acc b => acc * 256 + b % 256) 0

/-- A UDP address: the IP as its byte list (length 4 or 16) and port. -/
structure UDPAddr where
  ip : List Nat
  port : Int
  deriving DecidableEq, Repr

/-- newConnTrackKey: zero-extend an IPv4 address, split an IPv6 address
into its high and low 64 bits. -/
def newConnTrackKey (addr : UDPAddr) : ConnTrackKey :=
  if addr.ip.length = 4 then
    { ipHigh := 0, ipLow := beBytes addr.ip, port := addr.port }
  else
    { ipHigh := beBytes (addr.ip.take 8)
      ipLow := beBytes (addr.ip.drop 8)
      port := addr.port }

/-- The connection-track table: keys mapped to upstream sockets
(identified here by allocation number). -/
structure UDPProxyM where
  connTrackTable : List (ConnTrackKey × Nat)
  deriving DecidableEq, Repr

/-- Lookup in a connection-track table. -/
def ctLookup : List (ConnTrackKey × Nat) → ConnTrackKey → Option Nat
  | [], _ => none
  | (k, v) :: rest, key => if k = key then some v else ctLookup rest key

/-- What one iteration of runUDP observes for the received datagram. -/
structure UDPStepResult where
  hit : Bool
  dialed : Bool
  deriving DecidableEq, Repr

/-- One iteration of the receive loop in Service.runUDP, for a datagram
from `fromAddr`, when the balancer returned a backend: the source
constructs `proxy := &UDPProxy{ ..., connTrackTable: make(connTrackMap) }`
— a *fresh, empty* table — inside the loop body, then looks the client's
key up in that table, dialing a new upstream socket (`nextSock`) on a
miss.  Nothing of the table survives to the next iteration. -/
def runUDPStep (nextSock : Nat) (fromAddr : UDPAddr) : UDPStepResult × Nat :=
  let proxy : UDPProxyM := { connTrackTable := [] }
  let fromKey := newConnTrackKey fromAddr
  match ctLookup proxy.connTrackTable fromKey with
  | some _ => ({ hit := true, dialed := false }, nextSock)
  | none => ({ hit := false, dialed := true }, nextSock + 1)

/-- The receive loop over a sequence of datagrams (client addresses). -/
def runUDPStream (nextSock : Nat) : List UDPAddr → List UDPStepResult
  | [] => []
  | a :: rest =>
    let step := runUDPStep nextSock a
    step.1 :: runUDPStream step.2 rest

/-- The client address used for claim C2. -/
def c2client : UDPAddr := { ip := [127, 0, 0, 1], port := 5000 }

/-- Claim C2 fails on the code: two datagrams received from the same
client address — hence carrying the same connection-track key — each
miss the lookup and each dial a fresh upstream socket, because runUDP
rebuilds an empty connTrackTable for every datagram; the second datagram
does not reuse the first flow's socket. -/
theorem c2_conntrack_lookup_never_hits :
    runUDPStream 0 [c2client, c2client] =
      [{ hit := false, dialed := true }, { hit := false, dialed := true }] := by
  decide

/-! ## Claim C5: weighted round-robin -/

/-- Modelled from the spec: `Service.roundRobin`, the weighted
round-robin balancer.  The function is installed as `s.next` by
NewService in src/service.go, but its body lives in a source file not
present under src/.  Spec 4.2: on each call, if
`lastCount < weight(lastBackend)` increment `lastCount` and keep the
same head; otherwise advance `lastBackend := (lastBackend+1) mod N` and
reset `lastCount := 1`; return the backend list rotated so that
`backends[lastBackend]` is first. -/
def Service.roundRobin (s : Service) : Service × List Backend :=
  if s.backends.isEmpty then (s, [])
  else
    let n := s.backends.length
    let w := (s.backends.getD s.lastBackend default).weight
    let s :=
      if s.lastCount < w then { s with lastCount := s.lastCount + 1 }
      else { s with lastBackend := (s.lastBackend + 1) % n, lastCount := 1 }
    (s, s.backends.drop s.lastBackend ++ s.backends.take s.lastBackend)

/-- The names of the heads of `count` successive round-robin calls. -/
def rrHeads (s : Service) : Nat → List String
  | 0 => []
  | count + 1 =>
    let step := s.roundRobin
    (step.2.headD default).name :: rrHeads step.1 count

/-- Head of a rotation: for `i < l.length`, rotating `l` by `i` puts
element `i` first. -/
theorem rotHead {α : Type} [Inhabited α] (l : List α) (i : Nat) (h : i < l.length) :
    (l.drop i ++ l.take i).headD default = l.getD i default := by
  rw [List.drop_eq_getElem_cons h, List.getD_eq_getElem l default h]
  rfl

/-- The service used for claim C5: three backends of weights 1, 2, 3. -/
def c5svc : Service :=
  NewService
    { ServiceConfig.zero with
        name := "testService"
        addr := "127.0.0.1:2000"
        backends :=
          some
            [{ name := "b0", addr := "127.0.0.1:9000", network := "", checkAddr := "", weight := 1 },
             { name := "b1", addr := "127.0.0.1:9001", network := "", checkAddr := "", weight := 2 },
             { name := "b2", addr := "127.0.0.1:9002", network := "", checkAddr := "", weight := 3 }] }

/-- Claim C5: with backends of weights 1, 2, 3 the heads of seven
successive selections are b0, b1, b1, b2, b2, b2, b0; and in general,
when `lastCount < weight(lastBackend)` the head repeats and `lastCount`
increments, otherwise `lastBackend` advances to `(lastBackend+1) mod N`
and `lastCount` resets to 1.  (The balancer body is modelled from the
spec; its initial state `lastBackend = lastCount = 0` is from
src/service.go.) -/
theorem c5_weighted_round_robin :
    rrHeads c5svc 7 = [("b0"), ("b1"), ("b1"), ("b2"), ("b2"), ("b2"), ("b0")] ∧
    (∀ s : Service, s.backends ≠ [] → s.lastBackend < s.backends.length →
      (s.lastCount < (s.backends.getD s.lastBackend default).weight →
        (s.roundRobin).1.lastBackend = s.lastBackend ∧
        (s.roundRobin).1.lastCount = s.lastCount + 1 ∧
        (s.roundRobin).2.headD default = s.backends.getD s.lastBackend default) ∧
      (¬ s.lastCount < (s.backends.getD s.lastBackend default).weight →
        (s.roundRobin).1.lastBackend = (s.lastBackend + 1) % s.backends.length ∧
        (s.roundRobin).1.lastCount = 1 ∧
        (s.roundRobin).2.headD default =
          s.backends.getD ((s.lastBackend + 1) % s.backends.length) default)) := by
  constructor
  · decide
  · intro s hne hlt
    have hemp : s.backends.isEmpty = false := by
      cases hb : s.backends
      · exact absurd hb hne
      · simp [hb]
    constructor
    · intro hcount
      simp only [Service.roundRobin, hemp, Bool.false_eq_true, if_false, if_pos hcount]
      refine ⟨trivial, trivial, ?_⟩
      exact rotHead s.backends s.lastBackend hlt
    · intro hcount
      simp only [Service.roundRobin, hemp, Bool.false_eq_true, if_false, if_neg hcount]
      refine ⟨trivial, trivial, ?_⟩
      exact rotHead s.backends ((s.lastBackend + 1) % s.backends.length)
        (Nat.mod_lt _ (List.length_pos.mpr hne))

/-- Witness for claim C5: the general step rule applied to the concrete
service (first call: `lastCount = 0 < 1 = weight(b0)`, so the head is
backend 0 and the counter increments). -/
theorem c5_weighted_round_robin_witness :
    c5svc.backends ≠ [] ∧ c5svc.lastBackend < c5svc.backends.length ∧
    c5svc.lastCount < (c5svc.backends.getD c5svc.lastBackend default).weight ∧
    (c5svc.roundRobin).1.lastBackend = c5svc.lastBackend ∧
    (c5svc.roundRobin).1.lastCount = c5svc.lastCount + 1 ∧
    (c5svc.roundRobin).2.headD default = c5svc.backends.getD c5svc.lastBackend default := by
  have h := (c5_weighted_round_robin.2 c5svc (by decide) (by decide)).1 (by decide)
  exact ⟨by decide, by decide, by decide, h.1, h.2.1, h.2.2⟩

/-! ## Claim C6: Service.add and the network-family invariant -/

/-- A TCP service with no backends. -/
def c6svc : Service :=
  NewService
    { ServiceConfig.zero with
        name := "tcpsvc"
        addr := "127.0.0.1:2000" }

/-- A UDP backend offered to the TCP service. -/
def c6backend : Backend :=
  NewBackend
    { name := "b1"
      addr := "127.0.0.1:9999"
      network := "udp"
      checkAddr := ""
      weight := 1 }

/-- Claim C6 fails on the code: adding a udp backend to a tcp service
logs the family-mismatch error (second conjunct) but installs the
backend anyway — after the call the service's backend list contains the
udp backend, so the network-family invariant does not hold. -/
theorem c6_add_installs_mismatched_family :
    strTake3 c6svc.network ≠ strTake3 c6backend.network ∧
    (c6svc.add c6backend).2 = true ∧
    ((c6svc.add c6backend).1.backends.map (fun b => b.name)) = [("b1")] ∧
    ((c6svc.add c6backend).1.backends.map (fun b => b.network)) = [("udp")] := by
  decide

/-! ## Claim C10: VirtualHost.Service -/

/-- A VirtualHost as VirtualHost.Service consults it: the registered
services (held by pointer in Go, inlined here) and the last-served
index. -/
structure VirtualHostS where
  name : String
  services : List Service
  last : Nat
  deriving DecidableEq, Repr

/-- The scan loop of VirtualHost.Service:
`for i := 1; i <= len(v.services); i++` looks at index
`(v.last + i) % len` and returns the first index whose service has an
available backend.  `fuel` counts the remaining iterations. -/
def vhServiceScan (svcs : List Service) (last : Nat) : Nat → Nat → Option Nat
  | 0, _ => none
  | fuel + 1, i =>
    if (svcs.getD ((last + i) % svcs.length) default).availableCount > 0 then
      some ((last + i) % svcs.length)
    else
      vhServiceScan svcs last fuel (i + 1)

/-- VirtualHost.Service: nil when no services are registered; otherwise
the first service in round-robin order (starting after `last`) with an
available backend, updating `last`; when no service has an available
backend, `services[v.last]` with `last` unchanged.  (Go indexes
`v.services[v.last]` directly, which panics when `last` is out of
range; the claim theorem assumes `last` in range.) -/
def VirtualHostS.service (v : VirtualHostS) : Option (Service × VirtualHostS) :=
  if v.services.length = 0 then none
  else
    match vhServiceScan v.services v.last v.services.length 1 with
    | some idx => some (v.services.getD idx default, { v with last := idx })
    | none => some (v.services.getD v.last default, v)

/-- The scan returns none exactly when every scanned index is
unavailable. -/
theorem vhServiceScan_eq_none (svcs : List Service) (last : Nat) :
    ∀ fuel i, vhServiceScan svcs last fuel i = none ↔
      ∀ k, k < fuel →
        (svcs.getD ((last + (i + k)) % svcs.length) default).availableCount = 0 := by
  intro fuel
  induction fuel with
  | zero => intro i; simp [vhServiceScan]
  | succ n ih =>
    intro i
    rw [vhServiceScan]
    split
    · rename_i havail
      simp only [reduceCtorEq, false_iff]
      intro hall
      have h0 := hall 0 (Nat.succ_pos n)
      rw [Nat.add_zero] at h0
      omega
    · rename_i havail
      rw [ih (i + 1)]
      constructor
      · intro hall k hk
        cases k with
        | zero => rw [Nat.add_zero]; omega
        | succ m =>
          have := hall m (by omega)
          have harith : i + 1 + m = i + (m + 1) := by omega
          rw [harith] at this
          exact this
      · intro hall k hk
        have := hall (k + 1) (by omega)
        have harith : i + (k + 1) = i + 1 + k := by omega
        rw [harith] at this
        exact this

/-- The scan returns the first available index at or after its start. -/
theorem vhServiceScan_eq_some (svcs : List Service) (last : Nat) :
    ∀ fuel i j, i ≤ j → j < i + fuel →
      (svcs.getD ((last + j) % svcs.length) default).availableCount > 0 →
      (∀ k, i ≤ k → k < j →
        (svcs.getD ((last + k) % svcs.length) default).availableCount = 0) →
      vhServiceScan svcs last fuel i = some ((last + j) % svcs.length) := by
  intro fuel
  induction fuel with
  | zero => intro i j h1 h2; omega
  | succ n ih =>
    intro i j h1 h2 havail hleast
    rw [vhServiceScan]
    split
    · rename_i hi
      have : j = i := by
        by_contra hne
        have := hleast i (Nat.le_refl i) (by omega)
        omega
      rw [this]
    · rename_i hi
      have hij : i ≠ j := by
        intro he
        rw [he] at hi
        exact hi havail
      exact ih (i + 1) j (by omega) (by omega) havail
        (fun k hk1 hk2 => hleast k (by omega) hk2)

/-- Claim C10: for a VirtualHost with a non-empty service list (and an
in-range last-served index, which Go assumes on pain of a panic),
`Service()` returns a service (never nil): it round-robins from the
last-served index, returning the first service with `Available() > 0`
and recording it as last served; when no service has an available
backend it returns the service at the last-served index unchanged; and
a service in maintenance mode counts zero available backends. -/
theorem c10_vhost_service_selection (v : VirtualHostS)
    (hne : v.services ≠ []) (hlast : v.last < v.services.length) :
    (∃ p, v.service = some p) ∧
    ((∀ s ∈ v.services, s.availableCount = 0) →
      v.service = some (v.services.getD v.last default, v)) ∧
    (∀ j, 1 ≤ j → j ≤ v.services.length →
      (v.services.getD ((v.last + j) % v.services.length) default).availableCount > 0 →
      (∀ k, 1 ≤ k → k < j →
        (v.services.getD ((v.last + k) % v.services.length) default).availableCount = 0) →
      v.service =
        some (v.services.getD ((v.last + j) % v.services.length) default,
          { v with last := (v.last + j) % v.services.length })) ∧
    (∀ s : Service, s.maintenanceMode = true → s.availableCount = 0) := by
  have hlen0 : 0 < v.services.length := List.length_pos.mpr hne
  have hlenne : ¬ v.services.length = 0 := Nat.pos_iff_ne_zero.mp hlen0
  refine ⟨?_, ?_, ?_, ?_⟩
  · unfold VirtualHostS.service
    rw [if_neg hlenne]
    cases hscan : vhServiceScan v.services v.last v.services.length 1 with
    | none => exact ⟨_, rfl⟩
    | some idx => exact ⟨_, rfl⟩
  · intro hall
    have hnone : vhServiceScan v.services v.last v.services.length 1 = none := by
      rw [vhServiceScan_eq_none]
      intro k hk
      have hidx : (v.last + (1 + k)) % v.services.length < v.services.length :=
        Nat.mod_lt _ hlen0
      rw [List.getD_eq_getElem _ default hidx]
      exact hall _ (List.getElem_mem hidx)
    unfold VirtualHostS.service
    rw [if_neg hlenne, hnone]
  · intro j hj1 hj2 havail hleast
    have hsome : vhServiceScan v.services v.last v.services.length 1 =
        some ((v.last + j) % v.services.length) :=
      vhServiceScan_eq_some v.services v.last v.services.length 1 j hj1 (by omega) havail
        (fun k hk1 hk2 => hleast k hk1 hk2)
    unfold VirtualHostS.service
    rw [if_neg hlenne, hsome]
  · intro s hm
    simp [Service.availableCount, hm]

/-- A service with no backends (so no available backend). -/
def c10svcA : Service :=
  NewService { ServiceConfig.zero with name := "app1", addr := "127.0.0.1:2100" }

/-- The concrete VirtualHost used by the witness for claim C10. -/
def c10vh : VirtualHostS :=
  { name := "example.com", services := [c10svcA], last := 0 }

/-- Witness for claim C10: on a vhost whose only service has no
available backend, Service() still returns that (last-served) service
rather than nil. -/
theorem c10_vhost_service_selection_witness :
    c10vh.services ≠ [] ∧ c10vh.last < c10vh.services.length ∧
    c10vh.service = some (c10vh.services.getD c10vh.last default, c10vh) := by
  have h := c10_vhost_service_selection c10vh (by decide) (by decide)
  exact ⟨by decide, by decide, h.2.1 (by decide)⟩

/-! ## The service registry (src/unnamed/part_000) -/

/-- A VirtualHost as stored in the registry's vhost table.  Go keeps
`*Service` pointers in `v.services`; since service names are unique in
the registry a pointer is determined by its service's name, and the
list is modelled by names. -/
structure VHostEntry where
  name : String
  services : List String
  last : Nat
  deriving DecidableEq, Repr

/-- VirtualHost.Add: do nothing when a service of that name is already
registered, otherwise append. -/
def VHostEntry.vhAdd (v : VHostEntry) (svcName : String) : VHostEntry :=
  if v.services.any (fun s => s = svcName) then v
  else { v with services := v.services ++ [svcName] }

/-- VirtualHost.Remove: find the first entry of that name and splice it
out (`append(v.services[:found], v.services[found+1:]...)`), doing
nothing when absent — which is exactly erasing the first occurrence. -/
def VHostEntry.vhRemove (v : VHostEntry) (svcName : String) : VHostEntry :=
  { v with services := v.services.erase svcName }

/-- ServiceRegistry: the service map, the vhost table and the global
default config. -/
structure Registry where
  svcs : List (String × Service)
  vhosts : List (String × VHostEntry)
  cfg : Config
  deriving DecidableEq, Repr

/-- The registry a fresh process starts with. -/
def Registry.empty : Registry := { svcs := [], vhosts := [], cfg := Config.zero }

/-- setServiceDefaults: copy each set global default onto an unset field
of a new service's config. -/
def Registry.setServiceDefaults (r : Registry) (svc : ServiceConfig) : ServiceConfig :=
  let svc := if svc.balance = "" ∧ r.cfg.balance ≠ "" then { svc with balance := r.cfg.balance } else svc
  let svc := if svc.checkInterval = 0 ∧ r.cfg.checkInterval ≠ 0 then { svc with checkInterval := r.cfg.checkInterval } else svc
  let svc := if svc.fall = 0 ∧ r.cfg.fall ≠ 0 then { svc with fall := r.cfg.fall } else svc
  let svc := if svc.rise = 0 ∧ r.cfg.rise ≠ 0 then { svc with rise := r.cfg.rise } else svc
  let svc := if svc.clientTimeout = 0 ∧ r.cfg.clientTimeout ≠ 0 then { svc with clientTimeout := r.cfg.clientTimeout } else svc
  let svc := if svc.serverTimeout = 0 ∧ r.cfg.serverTimeout ≠ 0 then { svc with serverTimeout := r.cfg.serverTimeout } else svc
  let svc := if svc.dialTimeout = 0 ∧ r.cfg.dialTimeout ≠ 0 then { svc with dialTimeout := r.cfg.dialTimeout } else svc
  let svc := if r.cfg.httpsRedirect then { svc with httpsRedirect := true } else svc
  svc

/-- Create-or-reuse a vhost entry for `host` and add the service to it,
as both AddService and the add half of updateVHosts do. -/
def addVHStep (svcName : String) (vhosts : List (String × VHostEntry)) (host : String) :
    List (String × VHostEntry) :=
  match alookup vhosts host with
  | none => aset vhosts host (VHostEntry.vhAdd { name := host, services := [], last := 0 } svcName)
  | some v => aset vhosts host (v.vhAdd svcName)

/-- The remove half of updateVHosts for one host name: remove the
service from the vhost, and delete the vhost when it went empty.
(When the host is missing from the table Go dereferences a nil
`*VirtualHost` in `vhost.Len()` and panics; that case is unreachable
from states satisfying the registry invariant, and is modelled as the
no-op deletion of an absent key.) -/
def removeVHStep (svcName : String) (vhosts : List (String × VHostEntry)) (host : String) :
    List (String × VHostEntry) :=
  match alookup vhosts host with
  | none => aerase vhosts host
  | some v =>
    let v := v.vhRemove svcName
    if v.services.length = 0 then aerase vhosts host else aset vhosts host v

/-- ServiceRegistry.AddService: reject a duplicate name, apply the
global and the per-service defaults, construct and start the service
(start fails on an unknown network; the listener bind itself is I/O and
is modelled as succeeding), install it, and register it in a
created-or-reused vhost for each non-blank virtual-host name. -/
def Registry.addService (r : Registry) (svcCfg : ServiceConfig) : Registry × Option GoErr :=
  match alookup r.svcs svcCfg.name with
  | some _ => (r, some .duplicateService)
  | none =>
    let svcCfg := r.setServiceDefaults svcCfg
    let svcCfg := svcCfg.SetDefaults
    let service := NewService svcCfg
    if service.network = "tcp" ∨ service.network = "tcp4" ∨ service.network = "tcp6" ∨
        service.network = "udp" ∨ service.network = "udp4" ∨ service.network = "udp6" then
      let svcs := aset r.svcs service.name service
      let vhNames := filterEmpty svcCfg.virtualHosts.toList
      let vhosts := vhNames.foldl (addVHStep service.name) r.vhosts
      ({ r with svcs := svcs, vhosts := vhosts }, none)
    else
      (r, some (.unknownNetwork service.network))

/-- ServiceRegistry.updateVHosts: sort the old and new host lists, diff
them by linear merge, apply the removals (deleting vhosts that go
empty), then the additions, and replace the service's VirtualHosts with
the (sorted) new list. -/
def Registry.updateVHosts (r : Registry) (service : Service) (newHosts : GoSlice String) :
    Registry × Service :=
  let oldSorted := sortStr service.virtualHosts.toList
  let newSorted := gsSort newHosts
  let dm := diffMerge oldSorted newSorted.toList
  let vhosts := dm.1.foldl (removeVHStep service.name) r.vhosts
  let vhosts := dm.2.foldl (addVHStep service.name) vhosts
  ({ r with vhosts := vhosts }, { service with virtualHosts := newSorted })

/-- One step of the backend diff in UpdateService: an unchanged backend
is left untouched (and removed from the current-backends map), a
changed or new one is removed and re-added. -/
def backendDiffStep (acc : Service × List BackendConfig) (nb : BackendConfig) :
    Service × List BackendConfig :=
  let svc := acc.1
  let cur := acc.2
  match cur.find? (fun c => c.name = nb.name) with
  | some c =>
    if c.Equal nb then
      (svc, cur.filter (fun c2 => ¬ c2.name = nb.name))
    else
      let svc := (svc.removeBackend nb.name).1
      let svc := ((svc.add (NewBackend nb))).1
      (svc, cur.filter (fun c2 => ¬ c2.name = nb.name))
  | none =>
    let svc := (svc.removeBackend nb.name).1
    let svc := ((svc.add (NewBackend nb))).1
    (svc, cur)

/-- ServiceRegistry.UpdateService: look up the service, merge the new
config onto its current one, apply Service.UpdateConfig (which rejects
Addr/ClientTimeout changes before mutating anything), diff the
backends, and — unless the merged config is Equal to the current one —
replace the error pages if they differ and update the vhost table.
(In Go the Equal call also leaves the live service's VirtualHosts slice
sorted through aliasing; that reordering is set-preserving and is not
modelled.) -/
def Registry.updateService (r : Registry) (newCfg : ServiceConfig) : Registry × Option GoErr :=
  match alookup r.svcs newCfg.name with
  | none => (r, some .noService)
  | some service =>
    let currentCfg := service.config
    let newCfg := currentCfg.Merge newCfg
    match service.updateConfig newCfg with
    | .error e => (r, some e)
    | .ok service =>
      let step := (newCfg.backends.toList).foldl backendDiffStep (service, currentCfg.backends.toList)
      let service := step.2.foldl (fun svc c => (svc.removeBackend c.name).1) step.1
      if currentCfg.Equal newCfg then
        ({ r with svcs := aset r.svcs newCfg.name service }, none)
      else
        let service :=
          if ¬ (service.errPagesCfg = newCfg.errorPages) then
            { service with errPagesCfg := newCfg.errorPages }
          else service
        let ru := r.updateVHosts service (gsFilterEmpty newCfg.virtualHosts)
        ({ ru.1 with svcs := aset r.svcs newCfg.name ru.2 }, none)

/-- ServiceRegistry.RemoveService: delete the service from the map,
remove it from every vhost, and delete every vhost that no remaining
service lists in its VirtualHosts. -/
def Registry.removeService (r : Registry) (name : String) : Registry × Option GoErr :=
  match alookup r.svcs name with
  | none => (r, some .noService)
  | some svc =>
    let svcs := aerase r.svcs name
    let vhosts := r.vhosts.filterMap (fun q =>
      let v := q.2.vhRemove svc.name
      if svcs.any (fun p => (p.2.virtualHosts.toList).any (fun h => q.1 = h)) then
        some (q.1, v)
      else
        none)
    ({ r with svcs := svcs, vhosts := vhosts }, none)

/-- ServiceRegistry.AddBackend. -/
def Registry.addBackend (r : Registry) (svcName : String) (backendCfg : BackendConfig) :
    Registry × Option GoErr :=
  match alookup r.svcs svcName with
  | none => (r, some .noService)
  | some service =>
    ({ r with svcs := aset r.svcs svcName (service.add (NewBackend backendCfg)).1 }, none)

/-- ServiceRegistry.RemoveBackend. -/
def Registry.removeBackendReg (r : Registry) (svcName backendName : String) :
    Registry × Option GoErr :=
  match alookup r.svcs svcName with
  | none => (r, some .noService)
  | some service =>
    let step := service.removeBackend backendName
    if step.2 then ({ r with svcs := aset r.svcs svcName step.1 }, none)
    else (r, some .noBackend)

/-- ServiceRegistry.UpdateConfig: apply the set global defaults, then
for each service in the config accumulate a port-conflict error when
its Addr ends in the admin listener's port — the `continue` in the
source only skips the rest of the inner loop over `invalidPorts`, so
the service is still added or updated below — and then AddService or
UpdateService it, accumulating any error.  The returned list is the
multi-error (empty = nil). -/
def Registry.updateConfigOp (r : Registry) (adminListenAddr : String)
    (globalHTTPSRedirect : Bool) (cfg : Config) : Registry × List GoErr :=
  let rcfg := r.cfg
  let rcfg := if cfg.balance ≠ "" then { rcfg with balance := cfg.balance } else rcfg
  let rcfg := if cfg.checkInterval ≠ 0 then { rcfg with checkInterval := cfg.checkInterval } else rcfg
  let rcfg := if cfg.fall ≠ 0 then { rcfg with fall := cfg.fall } else rcfg
  let rcfg := if cfg.rise ≠ 0 then { rcfg with rise := cfg.rise } else rcfg
  let rcfg := if cfg.clientTimeout ≠ 0 then { rcfg with clientTimeout := cfg.clientTimeout } else rcfg
  let rcfg := if cfg.serverTimeout ≠ 0 then { rcfg with serverTimeout := cfg.serverTimeout } else rcfg
  let rcfg := if cfg.dialTimeout ≠ 0 then { rcfg with dialTimeout := cfg.dialTimeout } else rcfg
  let rcfg := if globalHTTPSRedirect then { rcfg with httpsRedirect := true } else rcfg
  let r := { r with cfg := rcfg }
  let invalidPorts := [afterColon adminListenAddr]
  cfg.services.foldl
    (fun (acc : Registry × List GoErr) svc =>
      let r := acc.1
      let errs := acc.2 ++
        (invalidPorts.filter (fun port => goHasSuffix svc.addr port)).map
          (fun port => GoErr.portConflict svc.name port)
      match alookup r.svcs svc.name with
      | none =>
        let step := r.addService svc
        match step.2 with
        | some e => (step.1, errs ++ [e])
        | none => (step.1, errs)
      | some _ =>
        let step := r.updateService svc
        match step.2 with
        | some e => (step.1, errs ++ [e])
        | none => (step.1, errs))
    (r, [])

/-! ## Claim C4: Addr and ClientTimeout are immutable -/

/-- Claim C4: for an existing service (with a non-empty listening
address, as every started service has), UpdateService returns
"configuration requires a new service" (ErrInvalidServiceUpdate)
exactly when the merged config changes `Addr` or `ClientTimeout`, and
in that case the registry — in particular the service's Addr and
ClientTimeout — is left unchanged. -/
theorem c4_update_requires_new_service (r : Registry) (cfg : ServiceConfig) (s : Service)
    (hs : alookup r.svcs cfg.name = some s) (ha : s.addr ≠ "") :
    ((r.updateService cfg).2 = some GoErr.invalidServiceUpdate ↔
      ((s.config.Merge cfg).addr ≠ s.addr ∨
        (s.config.Merge cfg).clientTimeout ≠ s.clientTimeout)) ∧
    (((s.config.Merge cfg).addr ≠ s.addr ∨
        (s.config.Merge cfg).clientTimeout ≠ s.clientTimeout) →
      (r.updateService cfg).1 = r) := by
  simp only [Registry.updateService, hs, Service.updateConfig]
  by_cases hct : s.clientTimeout = (s.config.Merge cfg).clientTimeout
  · rw [if_neg (not_not_intro hct)]
    by_cases haddr : s.addr = (s.config.Merge cfg).addr
    · have hcond : ¬ (s.addr ≠ "" ∧ s.addr ≠ (s.config.Merge cfg).addr) := by
        intro h
        exact h.2 haddr
      rw [if_neg hcond]
      constructor
      · simp only [apply_ite Prod.snd, ite_self]
        constructor
        · intro h
          cases h
        · intro h
          cases h with
          | inl h1 => exact absurd haddr.symm h1
          | inr h2 => exact absurd hct.symm h2
      · intro h
        cases h with
        | inl h1 => exact absurd haddr.symm h1
        | inr h2 => exact absurd hct.symm h2
    · rw [if_pos ⟨ha, haddr⟩]
      refine ⟨?_, fun _ => rfl⟩
      constructor
      · intro _
        exact Or.inl (fun h => haddr h.symm)
      · intro _
        rfl
  · rw [if_pos hct]
    refine ⟨?_, fun _ => rfl⟩
    constructor
    · intro _
      exact Or.inr (fun h => hct h.symm)
    · intro _
      rfl

/-- The config the C4 witness service is created from. -/
def c4cfg0 : ServiceConfig :=
  { ServiceConfig.zero with name := "web", addr := "127.0.0.1:9324" }

/-- A registry holding one service, created through AddService. -/
def c4reg : Registry := (Registry.empty.addService c4cfg0).1

/-- The service value stored in `c4reg` (defaults applied). -/
def c4svc : Service := NewService (Registry.empty.setServiceDefaults c4cfg0).SetDefaults

/-- An update that changes the service's Addr. -/
def c4upd : ServiceConfig :=
  { ServiceConfig.zero with name := "web", addr := "127.0.0.1:9425" }

/-- Witness for claim C4: updating the concrete service with a config
whose merged result changes Addr yields ErrInvalidServiceUpdate and
leaves the registry unchanged. -/
theorem c4_update_requires_new_service_witness :
    alookup c4reg.svcs c4upd.name = some c4svc ∧ c4svc.addr ≠ "" ∧
    ((c4reg.updateService c4upd).2 = some GoErr.invalidServiceUpdate ↔
      ((c4svc.config.Merge c4upd).addr ≠ c4svc.addr ∨
        (c4svc.config.Merge c4upd).clientTimeout ≠ c4svc.clientTimeout)) ∧
    (((c4svc.config.Merge c4upd).addr ≠ c4svc.addr ∨
        (c4svc.config.Merge c4upd).clientTimeout ≠ c4svc.clientTimeout) →
      (c4reg.updateService c4upd).1 = c4reg) := by
  have h := c4_update_requires_new_service c4reg c4upd c4svc (by decide) (by decide)
  exact ⟨by decide, by decide, h.1, h.2⟩

/-! ## Claim C7: UpdateConfig and the admin-port conflict -/

/-- A config whose first service collides with the admin port 9090 and
whose second service does not. -/
def c7cfg : Config :=
  { Config.zero with
      services :=
        [{ ServiceConfig.zero with name := "web", addr := "127.0.0.1:9090" },
         { ServiceConfig.zero with name := "web2", addr := "127.0.0.1:7001" }] }

/-- UpdateConfig applied to an empty registry with the admin listener on
port 9090. -/
def c7res : Registry × List GoErr :=
  Registry.empty.updateConfigOp ("127.0.0.1:9090") false c7cfg

/-- Claim C7 fails on the code: the service whose Addr collides with
the admin listener's port has the port-conflict error accumulated into
the returned multi-error, but it is still added to the registry — the
`continue` after `errors.Add` only leaves the inner loop over
`invalidPorts`, not the services loop.  (Later services are indeed
still processed: the second, non-conflicting service is added too.) -/
theorem c7_port_conflict_service_still_added :
    c7res.2 = [GoErr.portConflict ("web") ("9090")] ∧
    (alookup c7res.1.svcs ("web")).isSome = true ∧
    (alookup c7res.1.svcs ("web2")).isSome = true := by
  decide

/-! ## Order facts about the string comparison -/

/-- Characters with equal code points are equal. -/
theorem charEqOfToNat {a b : Char} (h : a.toNat = b.toNat) : a = b :=
  Char.ext (UInt32.ext h)

/-- clCmp returns eq exactly on equal lists. -/
theorem clCmp_eq_iff : ∀ (a b : List Char), clCmp a b = Ordering.eq ↔ a = b := by
  intro a
  induction a with
  | nil =>
    intro b
    cases b <;> simp [clCmp]
  | cons x xs ih =>
    intro b
    cases b with
    | nil => simp [clCmp]
    | cons y ys =>
      rw [clCmp]
      split
      · rename_i hlt
        constructor
        · intro h
          cases h
        · intro h
          injection h with h1 h2
          rw [h1] at hlt
          omega
      · split
        · rename_i hgt
          constructor
          · intro h
            cases h
          · intro h
            injection h with h1 h2
            rw [h1] at hgt
            omega
        · rename_i hlt hgt
          have hxy : x = y := charEqOfToNat (by omega)
          rw [ih ys, hxy]
          constructor
          · intro h
            rw [h]
          · intro h
            injection h

/-- clCmp flips between gt and lt on swapped arguments. -/
theorem clCmp_gt_iff_lt : ∀ (a b : List Char), clCmp a b = Ordering.gt ↔ clCmp b a = Ordering.lt := by
  intro a
  induction a with
  | nil =>
    intro b
    cases b <;> simp [clCmp]
  | cons x xs ih =>
    intro b
    cases b with
    | nil => simp [clCmp]
    | cons y ys =>
      rw [clCmp, clCmp]
      by_cases h1 : x.toNat < y.toNat
      · rw [if_pos h1, if_neg (by omega : ¬ y.toNat < x.toNat), if_pos h1]
        simp
      · by_cases h2 : y.toNat < x.toNat
        · rw [if_neg h1, if_pos h2, if_pos h2]
          simp
        · rw [if_neg h1, if_neg h2, if_neg h2, if_neg h1]
          exact ih ys

/-- Transitivity of the lt result of clCmp. -/
theorem clCmp_lt_trans : ∀ (a b c : List Char),
    clCmp a b = Ordering.lt → clCmp b c = Ordering.lt → clCmp a c = Ordering.lt := by
  intro a
  induction a with
  | nil =>
    intro b c hab hbc
    cases b with
    | nil => cases hab
    | cons y ys =>
      cases c with
      | nil => cases hbc
      | cons z zs => simp [clCmp]
  | cons x xs ih =>
    intro b c hab hbc
    cases b with
    | nil => cases hab
    | cons y ys =>
      cases c with
      | nil => cases hbc
      | cons z zs =>
        rw [clCmp] at hab hbc ⊢
        by_cases hxy : x.toNat < y.toNat
        · by_cases hyz : y.toNat < z.toNat
          · rw [if_pos (by omega)]
          · rw [if_neg hyz] at hbc
            split at hbc
            · cases hbc
            · have : y.toNat = z.toNat := by omega
              rw [if_pos (by omega)]
        · rw [if_neg hxy] at hab
          split at hab
          · cases hab
          · rename_i hyx
            have hxyeq : x.toNat = y.toNat := by omega
            by_cases hyz : y.toNat < z.toNat
            · rw [if_pos (by omega)]
            · rw [if_neg hyz] at hbc
              split at hbc
              · cases hbc
              · rename_i hzy
                have hyzeq : y.toNat = z.toNat := by omega
                rw [if_neg (by omega), if_neg (by omega)]
                exact ih ys zs hab hbc

/-- strCmp returns eq exactly on equal strings. -/
theorem strCmp_eq_iff (a b : String) : strCmp a b = Ordering.eq ↔ a = b := by
  rw [strCmp, clCmp_eq_iff]
  constructor
  · exact String.ext
  · intro h
    rw [h]

/-- strCmp flips between gt and lt on swapped arguments. -/
theorem strCmp_gt_iff_lt (a b : String) : strCmp a b = Ordering.gt ↔ strCmp b a = Ordering.lt :=
  clCmp_gt_iff_lt a.data b.data

/-- Transitivity of the lt result of strCmp. -/
theorem strCmp_lt_trans {a b c : String} (h1 : strCmp a b = Ordering.lt)
    (h2 : strCmp b c = Ordering.lt) : strCmp a c = Ordering.lt :=
  clCmp_lt_trans a.data b.data c.data h1 h2

/-- strLtB in terms of strCmp. -/
theorem strLtB_iff (a b : String) : strLtB a b = true ↔ strCmp a b = Ordering.lt := by
  rw [strLtB]
  exact decide_eq_true_iff

/-- strLeB in terms of strCmp. -/
theorem strLeB_iff (a b : String) : strLeB a b = true ↔ strCmp a b ≠ Ordering.gt := by
  rw [strLeB]
  exact decide_eq_true_iff

/-- strCmp is reflexive-eq. -/
theorem strCmpSelf (a : String) : strCmp a a = Ordering.eq := (strCmp_eq_iff a a).mpr rfl

instance : IsTotal String strLeP where
  total := by
    intro a b
    rw [strLeP, strLeP, strLeB_iff, strLeB_iff]
    by_cases h : strCmp a b = Ordering.gt
    · right
      intro hgt
      have h1 := (strCmp_gt_iff_lt a b).mp h
      have h2 := (strCmp_gt_iff_lt b a).mp hgt
      have h3 := strCmp_lt_trans h2 h1
      rw [strCmpSelf] at h3
      cases h3
    · left
      exact h

instance : IsTrans String strLeP where
  trans := by
    intro a b c hab hbc
    rw [strLeP, strLeB_iff] at hab hbc ⊢
    intro hac
    have hca := (strCmp_gt_iff_lt a c).mp hac
    cases hab2 : strCmp a b with
    | gt => exact hab hab2
    | eq =>
      have heq := (strCmp_eq_iff a b).mp hab2
      subst heq
      exact hbc hac
    | lt =>
      cases hbc2 : strCmp b c with
      | gt => exact hbc hbc2
      | eq =>
        have heq := (strCmp_eq_iff b c).mp hbc2
        subst heq
        have h3 := strCmp_lt_trans hab2 hca
        rw [strCmpSelf] at h3
        cases h3
      | lt =>
        have h1 := strCmp_lt_trans hab2 hbc2
        have h3 := strCmp_lt_trans h1 hca
        rw [strCmpSelf] at h3
        cases h3

/-- Strict order is irreflexive: a string is not less than itself. -/
theorem strLtB_irrefl (a : String) : strLtB a a = false := by
  rw [strLtB, strCmpSelf]
  rfl

/-- Strict order implies inequality. -/
theorem strLtB_ne {a b : String} (h : strLtB a b = true) : a ≠ b := by
  intro he
  rw [he, strLtB_irrefl] at h
  cases h

/-- Strict order is asymmetric. -/
theorem strLtB_asymm {a b : String} (h1 : strLtB a b = true) : strLtB b a = false := by
  rw [strLtB_iff] at h1
  by_contra h
  have h2 : strLtB b a = true := by
    revert h
    cases strLtB b a <;> simp
  rw [strLtB_iff] at h2
  have h3 := strCmp_lt_trans h1 h2
  rw [strCmpSelf] at h3
  cases h3

/-- Strict order is transitive. -/
theorem strLtB_trans {a b c : String} (h1 : strLtB a b = true) (h2 : strLtB b c = true) :
    strLtB a c = true := by
  rw [strLtB_iff] at h1 h2 ⊢
  exact strCmp_lt_trans h1 h2

/-- Weak order plus inequality gives strict order. -/
theorem strLtB_of_le_ne {a b : String} (hle : strLeP a b) (hne : a ≠ b) : strLtB a b = true := by
  rw [strLeP, strLeB_iff] at hle
  rw [strLtB_iff]
  cases h : strCmp a b with
  | lt => rfl
  | eq => exact absurd (strCmp_eq_iff a b |>.mp h) hne
  | gt => exact absurd h hle

/-- Trichotomy: two strings that are not strictly ordered either way
are equal. -/
theorem strEq_of_not_lt {a b : String} (h1 : ¬ strLtB a b = true) (h2 : ¬ strLtB b a = true) :
    a = b := by
  rw [strLtB_iff] at h1 h2
  cases h : strCmp a b with
  | lt => exact absurd h h1
  | eq => exact (strCmp_eq_iff a b).mp h
  | gt => exact absurd ((strCmp_gt_iff_lt a b).mp h) h2

/-! ## Facts about sortStr and filterEmpty -/

/-- sortStr sorts. -/
theorem sortStr_sorted (l : List String) : List.Sorted strLeP (sortStr l) :=
  List.sorted_insertionSort strLeP l

/-- sortStr permutes. -/
theorem sortStr_perm (l : List String) : (sortStr l).Perm l :=
  List.perm_insertionSort strLeP l

/-- sortStr preserves membership. -/
theorem sortStr_mem (l : List String) (x : String) : x ∈ sortStr l ↔ x ∈ l :=
  (sortStr_perm l).mem_iff

/-- sortStr preserves freedom from duplicates. -/
theorem sortStr_nodup {l : List String} (h : l.Nodup) : (sortStr l).Nodup :=
  (sortStr_perm l).nodup_iff.mpr h

/-- A sorted list without duplicates is strictly increasing. -/
theorem pairwise_lt_of_sorted_nodup {l : List String}
    (hs : List.Sorted strLeP l) (hn : l.Nodup) :
    l.Pairwise (fun a b => strLtB a b = true) := by
  have := List.Pairwise.and hs hn
  exact this.imp (fun h => strLtB_of_le_ne h.1 h.2)

/-- filterEmpty is the identity on lists of non-blank names. -/
theorem filterEmpty_eq_self {l : List String} (h : ∀ x ∈ l, strBlank x = false) :
    filterEmpty l = l := by
  rw [filterEmpty, List.filter_eq_self]
  intro a ha
  rw [h a ha]
  rfl

/-! ## Association-list lemmas -/

/-- The keys of an association list. -/
def akeys {α : Type} (l : List (String × α)) : List String := l.map Prod.fst

/-- Lookup after setting the same key. -/
theorem alookup_aset_self {α : Type} (l : List (String × α)) (k : String) (v : α) :
    alookup (aset l k v) k = some v := by
  induction l with
  | nil => simp [aset, alookup]
  | cons p rest ih =>
    obtain ⟨pk, pv⟩ := p
    rw [aset]
    by_cases h : pk = k
    · rw [if_pos h, alookup, if_pos h]
    · rw [if_neg h, alookup, if_neg h]
      exact ih

/-- Lookup after setting a different key. -/
theorem alookup_aset_ne {α : Type} (l : List (String × α)) (k k2 : String) (v : α)
    (h : k2 ≠ k) : alookup (aset l k v) k2 = alookup l k2 := by
  induction l with
  | nil =>
    show (if k = k2 then some v else alookup [] k2) = alookup [] k2
    rw [if_neg (fun he => h he.symm)]
  | cons p rest ih =>
    obtain ⟨pk, pv⟩ := p
    rw [aset]
    by_cases hp : pk = k
    · rw [if_pos hp, alookup, alookup]
      rw [hp]
      rw [if_neg (fun he => h he.symm), if_neg (fun he => h he.symm)]
    · rw [if_neg hp, alookup, alookup]
      by_cases hp2 : pk = k2
      · rw [if_pos hp2, if_pos hp2]
      · rw [if_neg hp2, if_neg hp2]
        exact ih

/-- Lookup after erasing a different key. -/
theorem alookup_aerase_ne {α : Type} (l : List (String × α)) (k k2 : String)
    (h : k2 ≠ k) : alookup (aerase l k) k2 = alookup l k2 := by
  induction l with
  | nil => rw [aerase]
  | cons p rest ih =>
    obtain ⟨pk, pv⟩ := p
    rw [aerase]
    by_cases hp : pk = k
    · rw [if_pos hp, alookup, if_neg (by rw [hp]; exact fun he => h he.symm)]
    · rw [if_neg hp, alookup, alookup]
      by_cases hp2 : pk = k2
      · rw [if_pos hp2, if_pos hp2]
      · rw [if_neg hp2, if_neg hp2]
        exact ih

/-- A key's presence is membership in the key list. -/
theorem alookup_isSome_iff {α : Type} (l : List (String × α)) (k : String) :
    (alookup l k).isSome = true ↔ k ∈ akeys l := by
  induction l with
  | nil => simp [alookup, akeys]
  | cons p rest ih =>
    obtain ⟨pk, pv⟩ := p
    rw [alookup, akeys]
    by_cases hp : pk = k
    · rw [if_pos hp]
      simp [hp]
    · rw [if_neg hp]
      simp only [List.map_cons, List.mem_cons]
      rw [akeys] at ih
      rw [ih]
      constructor
      · intro h
        exact Or.inr h
      · intro h
        cases h with
        | inl he => exact absurd he.symm hp
        | inr hm => exact hm

/-- An absent key looks up to none. -/
theorem alookup_eq_none_of_not_mem {α : Type} (l : List (String × α)) (k : String)
    (h : ¬ k ∈ akeys l) : alookup l k = none := by
  cases hl : alookup l k with
  | none => rfl
  | some v =>
    exfalso
    apply h
    rw [← alookup_isSome_iff, hl]
    rfl

/-- Erasing a key with no-duplicate keys removes it. -/
theorem alookup_aerase_self {α : Type} (l : List (String × α)) (k : String)
    (hnd : (akeys l).Nodup) : alookup (aerase l k) k = none := by
  induction l with
  | nil => rw [aerase, alookup]
  | cons p rest ih =>
    obtain ⟨pk, pv⟩ := p
    rw [akeys, List.map_cons, List.nodup_cons] at hnd
    rw [aerase]
    by_cases hp : pk = k
    · rw [if_pos hp]
      apply alookup_eq_none_of_not_mem
      rw [← hp]
      exact hnd.1
    · rw [if_neg hp, alookup, if_neg hp]
      exact ih hnd.2

/-- The keys after aset. -/
theorem akeys_aset {α : Type} (l : List (String × α)) (k : String) (v : α) :
    akeys (aset l k v) = if k ∈ akeys l then akeys l else akeys l ++ [k] := by
  induction l with
  | nil => simp [aset, akeys]
  | cons p rest ih =>
    obtain ⟨pk, pv⟩ := p
    rw [aset]
    by_cases hp : pk = k
    · rw [if_pos hp, akeys, akeys, List.map_cons, List.map_cons]
      rw [if_pos (by rw [hp]; exact List.mem_cons_self _ _)]
    · rw [if_neg hp, akeys, List.map_cons]
      rw [akeys] at ih
      rw [ih]
      by_cases hm : k ∈ akeys rest
      · rw [if_pos hm, if_pos (by rw [akeys, List.map_cons]; exact List.mem_cons_of_mem _ hm)]
        rfl
      · rw [if_neg hm, if_neg (by
          rw [akeys, List.map_cons, List.mem_cons]
          intro hor
          cases hor with
          | inl he => exact hp he.symm
          | inr hm2 => exact hm hm2)]
        rfl

/-- aset preserves no-duplicate keys. -/
theorem akeys_aset_nodup {α : Type} (l : List (String × α)) (k : String) (v : α)
    (hnd : (akeys l).Nodup) : (akeys (aset l k v)).Nodup := by
  rw [akeys_aset]
  by_cases hm : k ∈ akeys l
  · rw [if_pos hm]
    exact hnd
  · rw [if_neg hm]
    rw [List.nodup_append]
    exact ⟨hnd, List.nodup_singleton k, by simpa using hm⟩

/-- The keys after aerase form a sublist of the original keys. -/
theorem akeys_aerase_sublist {α : Type} (l : List (String × α)) (k : String) :
    (akeys (aerase l k)).Sublist (akeys l) := by
  induction l with
  | nil => simp [aerase]
  | cons p rest ih =>
    obtain ⟨pk, pv⟩ := p
    rw [aerase]
    by_cases hp : pk = k
    · rw [if_pos hp]
      show (akeys rest).Sublist (akeys ((pk, pv) :: rest))
      rw [akeys, akeys, List.map_cons]
      exact List.sublist_cons_self pk (List.map Prod.fst rest)
    · rw [if_neg hp, akeys, akeys, List.map_cons, List.map_cons]
      exact ih.cons₂ pk

/-- aerase preserves no-duplicate keys. -/
theorem akeys_aerase_nodup {α : Type} (l : List (String × α)) (k : String)
    (hnd : (akeys l).Nodup) : (akeys (aerase l k)).Nodup :=
  (akeys_aerase_sublist l k).nodup hnd

/-! ## Characterization of the updateVHosts diff -/

/-- Both halves of the diff are sublists of their inputs. -/
theorem diffMergeGo_sublist :
    ∀ (fuel : Nat) (olds news : List String),
      (diffMergeGo fuel olds news).1.Sublist olds ∧
      (diffMergeGo fuel olds news).2.Sublist news := by
  intro fuel
  induction fuel with
  | zero =>
    intro olds news
    cases olds with
    | nil => exact ⟨List.Sublist.refl _, List.Sublist.refl _⟩
    | cons o olds =>
      cases news with
      | nil => exact ⟨List.Sublist.refl _, List.Sublist.refl _⟩
      | cons n news => exact ⟨List.Sublist.refl _, List.Sublist.refl _⟩
  | succ f ih =>
    intro olds news
    cases olds with
    | nil => exact ⟨List.Sublist.refl _, List.Sublist.refl _⟩
    | cons o olds =>
      cases news with
      | nil => exact ⟨List.Sublist.refl _, List.Sublist.refl _⟩
      | cons n news =>
        rw [diffMergeGo]
        by_cases hON : o ≠ n
        · rw [if_pos hON]
          by_cases hlt : strLtB o n = true
          · rw [if_pos hlt]
            exact ⟨(ih olds (n :: news)).1.cons₂ o, (ih olds (n :: news)).2⟩
          · rw [if_neg hlt]
            exact ⟨(ih (o :: olds) news).1, (ih (o :: olds) news).2.cons₂ n⟩
        · rw [if_neg hON]
          exact ⟨(ih olds news).1.cons o, (ih olds news).2.cons n⟩

/-- Membership in the diff halves: on sorted duplicate-free lists the
loop computes exactly the two relative complements. -/
theorem diffMergeGo_mem :
    ∀ (fuel : Nat) (olds news : List String),
      olds.length + news.length ≤ fuel →
      olds.Pairwise (fun a b => strLtB a b = true) →
      news.Pairwise (fun a b => strLtB a b = true) →
      ∀ x,
        (x ∈ (diffMergeGo fuel olds news).1 ↔ x ∈ olds ∧ ¬ x ∈ news) ∧
        (x ∈ (diffMergeGo fuel olds news).2 ↔ x ∈ news ∧ ¬ x ∈ olds) := by
  intro fuel
  induction fuel with
  | zero =>
    intro olds news hlen hp1 hp2 x
    cases olds with
    | nil =>
      cases news with
      | nil => simp [diffMergeGo]
      | cons n news => simp at hlen
    | cons o olds => simp at hlen
  | succ f ih =>
    intro olds news hlen hp1 hp2 x
    cases olds with
    | nil => simp [diffMergeGo]
    | cons o olds =>
      cases news with
      | nil => simp [diffMergeGo]
      | cons n news =>
        rw [diffMergeGo]
        have hp1c := List.pairwise_cons.mp hp1
        have hp2c := List.pairwise_cons.mp hp2
        by_cases hON : o ≠ n
        · rw [if_pos hON]
          by_cases hlt : strLtB o n = true
          · rw [if_pos hlt]
            have ihm := ih olds (n :: news) (by simp at hlen ⊢; omega) hp1c.2 hp2
            have hiff1 := (ihm x).1
            have hiff2 := (ihm x).2
            have honews : ¬ (o = n ∨ o ∈ news) := by
              intro hor
              cases hor with
              | inl he => exact hON he
              | inr hm => exact strLtB_ne (strLtB_trans hlt (hp2c.1 o hm)) rfl
            have hxnewso : (x = n ∨ x ∈ news) → ¬ x = o := by
              intro hor he
              subst he
              exact honews hor
            simp only [List.mem_cons] at hiff1 hiff2 ⊢
            constructor
            · rw [hiff1]
              constructor
              · intro hor
                rcases hor with he | hand
                · subst he
                  exact ⟨Or.inl rfl, honews⟩
                · exact ⟨Or.inr hand.1, hand.2⟩
              · intro hand
                rcases hand.1 with he | hm
                · exact Or.inl he
                · exact Or.inr ⟨hm, hand.2⟩
            · rw [hiff2]
              constructor
              · intro hand
                refine ⟨hand.1, ?_⟩
                intro hor
                rcases hor with he | hm
                · exact hxnewso hand.1 he
                · exact hand.2 hm
              · intro hand
                exact ⟨hand.1, fun hm => hand.2 (Or.inr hm)⟩
          · rw [if_neg hlt]
            have hnlt : strLtB n o = true := by
              by_contra hc
              exact hON (strEq_of_not_lt hlt hc)
            have ihm := ih (o :: olds) news (by simp at hlen ⊢; omega) hp1 hp2c.2
            have hiff1 := (ihm x).1
            have hiff2 := (ihm x).2
            have holds : ¬ (n = o ∨ n ∈ olds) := by
              intro hor
              cases hor with
              | inl he => exact hON he.symm
              | inr hm => exact strLtB_ne (strLtB_trans hnlt (hp1c.1 n hm)) rfl
            have hxoldsn : (x = o ∨ x ∈ olds) → ¬ x = n := by
              intro hor he
              subst he
              exact holds hor
            simp only [List.mem_cons] at hiff1 hiff2 ⊢
            constructor
            · rw [hiff1]
              constructor
              · intro hand
                refine ⟨hand.1, ?_⟩
                intro hor
                rcases hor with he | hm
                · exact hxoldsn hand.1 he
                · exact hand.2 hm
              · intro hand
                exact ⟨hand.1, fun hm => hand.2 (Or.inr hm)⟩
            · rw [hiff2]
              constructor
              · intro hor
                rcases hor with he | hand
                · subst he
                  exact ⟨Or.inl rfl, holds⟩
                · exact ⟨Or.inr hand.1, hand.2⟩
              · intro hand
                rcases hand.1 with he | hm
                · exact Or.inl he
                · exact Or.inr ⟨hm, hand.2⟩
        · rw [if_neg hON]
          have he : o = n := by
            by_contra hc
            exact hON hc
          subst he
          have ihm := ih olds news (by simp at hlen ⊢; omega) hp1c.2 hp2c.2
          have hiff1 := (ihm x).1
          have hiff2 := (ihm x).2
          have hxolds : x ∈ olds → ¬ x = o := by
            intro hm he
            subst he
            exact strLtB_ne (hp1c.1 x hm) rfl
          have hxnews : x ∈ news → ¬ x = o := by
            intro hm he
            subst he
            exact strLtB_ne (hp2c.1 x hm) rfl
          simp only [List.mem_cons] at hiff1 hiff2 ⊢
          constructor
          · rw [hiff1]
            constructor
            · intro hand
              exact ⟨Or.inr hand.1, fun hor => hor.elim (hxolds hand.1) hand.2⟩
            · intro hand
              rcases hand.1 with he2 | hm
              · exact absurd (Or.inl he2) hand.2
              · exact ⟨hm, fun hm2 => hand.2 (Or.inr hm2)⟩
          · rw [hiff2]
            constructor
            · intro hand
              exact ⟨Or.inr hand.1, fun hor => hor.elim (hxnews hand.1) hand.2⟩
            · intro hand
              rcases hand.1 with he2 | hm
              · exact absurd (Or.inl he2) hand.2
              · exact ⟨hm, fun hm2 => hand.2 (Or.inr hm2)⟩

/-! ## VirtualHost entry lemmas -/

/-- Membership after vhost Add. -/
theorem vhAdd_mem (v : VHostEntry) (m n : String) :
    n ∈ (v.vhAdd m).services ↔ n ∈ v.services ∨ n = m := by
  rw [VHostEntry.vhAdd]
  by_cases hm : v.services.any (fun s => s = m) = true
  · rw [if_pos hm]
    simp only [List.any_eq_true, decide_eq_true_eq] at hm
    obtain ⟨x, hx, he⟩ := hm
    subst he
    constructor
    · intro h
      exact Or.inl h
    · intro h
      cases h with
      | inl h2 => exact h2
      | inr h2 => exact h2 ▸ hx
  · rw [if_neg hm]
    simp [List.mem_append]

/-- vhost Add preserves freedom from duplicates. -/
theorem vhAdd_nodup (v : VHostEntry) (m : String) (hnd : v.services.Nodup) :
    (v.vhAdd m).services.Nodup := by
  rw [VHostEntry.vhAdd]
  by_cases hm : v.services.any (fun s => s = m) = true
  · rw [if_pos hm]
    exact hnd
  · rw [if_neg hm]
    simp only [List.any_eq_true, decide_eq_true_eq] at hm
    push_neg at hm
    rw [List.nodup_append]
    refine ⟨hnd, List.nodup_singleton m, ?_⟩
    intro a ha hb
    rw [List.mem_singleton] at hb
    exact hm a ha hb

/-- vhost Add leaves the service list non-empty. -/
theorem vhAdd_ne_nil (v : VHostEntry) (m : String) : (v.vhAdd m).services ≠ [] := by
  rw [VHostEntry.vhAdd]
  by_cases hm : v.services.any (fun s => s = m) = true
  · rw [if_pos hm]
    simp only [List.any_eq_true, decide_eq_true_eq] at hm
    obtain ⟨x, hx, _⟩ := hm
    intro he
    rw [he] at hx
    cases hx
  · rw [if_neg hm]
    intro he
    cases List.append_eq_nil.mp he |>.2

/-- Membership after vhost Remove, on duplicate-free lists. -/
theorem vhRemove_mem (v : VHostEntry) (m n : String) (hnd : v.services.Nodup) :
    n ∈ (v.vhRemove m).services ↔ n ∈ v.services ∧ n ≠ m := by
  rw [VHostEntry.vhRemove]
  rw [hnd.mem_erase_iff]
  exact and_comm

/-- vhost Remove preserves freedom from duplicates. -/
theorem vhRemove_nodup (v : VHostEntry) (m : String) (hnd : v.services.Nodup) :
    (v.vhRemove m).services.Nodup :=
  hnd.erase m

/-! ## Pointwise behaviour of the vhost-table steps -/

/-- The effect of removeVHStep on the looked-up entry of its own host. -/
def remF (svcName : String) : Option VHostEntry → Option VHostEntry
  | none => none
  | some v =>
    if (v.vhRemove svcName).services.length = 0 then none
    else some (v.vhRemove svcName)

/-- The effect of addVHStep on the looked-up entry of its own host. -/
def addF (svcName host : String) : Option VHostEntry → Option VHostEntry
  | none => some (VHostEntry.vhAdd { name := host, services := [], last := 0 } svcName)
  | some v => some (v.vhAdd svcName)

/-- addF always yields an entry. -/
theorem addF_isSome (svcName host : String) (o : Option VHostEntry) :
    (addF svcName host o).isSome = true := by
  cases o <;> rfl

/-- removeVHStep acts pointwise: it only changes its own host's entry,
by remF. -/
theorem removeVHStep_lookup (svcName : String) (t : List (String × VHostEntry))
    (host h : String) (hnd : (akeys t).Nodup) :
    alookup (removeVHStep svcName t host) h =
      if h = host then remF svcName (alookup t host) else alookup t h := by
  rw [removeVHStep]
  cases hl : alookup t host with
  | none =>
    show alookup (aerase t host) h = if h = host then remF svcName none else alookup t h
    rw [show remF svcName none = none from rfl]
    by_cases he : h = host
    · subst he
      rw [if_pos rfl, alookup_aerase_self t h hnd]
    · rw [if_neg he, alookup_aerase_ne t host h he]
  | some v =>
    show alookup (if (v.vhRemove svcName).services.length = 0
        then aerase t host else aset t host (v.vhRemove svcName)) h =
      if h = host then remF svcName (some v) else alookup t h
    rw [show remF svcName (some v) =
        (if (v.vhRemove svcName).services.length = 0 then none
          else some (v.vhRemove svcName)) from rfl]
    by_cases hz : ((v.vhRemove svcName).services.length = 0)
    · rw [if_pos hz, if_pos hz]
      by_cases he : h = host
      · subst he
        rw [if_pos rfl, alookup_aerase_self t h hnd]
      · rw [if_neg he, alookup_aerase_ne t host h he]
    · rw [if_neg hz, if_neg hz]
      by_cases he : h = host
      · subst he
        rw [if_pos rfl, alookup_aset_self]
      · rw [if_neg he, alookup_aset_ne t host h _ he]

/-- addVHStep acts pointwise: it only changes its own host's entry, by
addF. -/
theorem addVHStep_lookup (svcName : String) (t : List (String × VHostEntry))
    (host h : String) :
    alookup (addVHStep svcName t host) h =
      if h = host then addF svcName host (alookup t host) else alookup t h := by
  rw [addVHStep]
  cases hl : alookup t host with
  | none =>
    show alookup (aset t host (VHostEntry.vhAdd { name := host, services := [], last := 0 } svcName)) h =
      if h = host then addF svcName host none else alookup t h
    rw [show addF svcName host none =
        some (VHostEntry.vhAdd { name := host, services := [], last := 0 } svcName) from rfl]
    by_cases he : h = host
    · subst he
      rw [if_pos rfl, alookup_aset_self]
    · rw [if_neg he, alookup_aset_ne t host h _ he]
  | some v =>
    show alookup (aset t host (v.vhAdd svcName)) h =
      if h = host then addF svcName host (some v) else alookup t h
    rw [show addF svcName host (some v) = some (v.vhAdd svcName) from rfl]
    by_cases he : h = host
    · subst he
      rw [if_pos rfl, alookup_aset_self]
    · rw [if_neg he, alookup_aset_ne t host h _ he]

/-- removeVHStep preserves no-duplicate keys. -/
theorem removeVHStep_nodup (svcName : String) (t : List (String × VHostEntry))
    (host : String) (hnd : (akeys t).Nodup) :
    (akeys (removeVHStep svcName t host)).Nodup := by
  rw [removeVHStep]
  cases alookup t host with
  | none => exact akeys_aerase_nodup t host hnd
  | some v =>
    show (akeys (if (v.vhRemove svcName).services.length = 0
        then aerase t host else aset t host (v.vhRemove svcName))).Nodup
    by_cases hz : ((v.vhRemove svcName).services.length = 0)
    · rw [if_pos hz]
      exact akeys_aerase_nodup t host hnd
    · rw [if_neg hz]
      exact akeys_aset_nodup t host _ hnd

/-- addVHStep preserves no-duplicate keys. -/
theorem addVHStep_nodup (svcName : String) (t : List (String × VHostEntry))
    (host : String) (hnd : (akeys t).Nodup) :
    (akeys (addVHStep svcName t host)).Nodup := by
  rw [addVHStep]
  cases alookup t host with
  | none => exact akeys_aset_nodup t host _ hnd
  | some v => exact akeys_aset_nodup t host _ hnd

/-- Folding removeVHStep over duplicate-free host names acts pointwise. -/
theorem foldl_removeVH_lookup (svcName : String) :
    ∀ (names : List String) (t : List (String × VHostEntry)),
      (akeys t).Nodup → names.Nodup → ∀ h,
      alookup (names.foldl (removeVHStep svcName) t) h =
        if h ∈ names then remF svcName (alookup t h) else alookup t h := by
  intro names
  induction names with
  | nil =>
    intro t hnd hnodup h
    rw [List.foldl_nil, if_neg (List.not_mem_nil h)]
  | cons x rest ih =>
    intro t hnd hnodup h
    rw [List.foldl_cons]
    have hx := List.nodup_cons.mp hnodup
    have hnd2 := removeVHStep_nodup svcName t x hnd
    rw [ih (removeVHStep svcName t x) hnd2 hx.2 h]
    by_cases hmem : h ∈ rest
    · have hne : h ≠ x := fun he => hx.1 (he ▸ hmem)
      rw [if_pos hmem, if_pos (List.mem_cons_of_mem x hmem)]
      rw [removeVHStep_lookup svcName t x h hnd, if_neg hne]
    · rw [if_neg hmem]
      rw [removeVHStep_lookup svcName t x h hnd]
      by_cases he : h = x
      · rw [if_pos he, if_pos (he ▸ List.mem_cons_self x rest), he]
      · rw [if_neg he, if_neg (by
          intro hor
          cases List.mem_cons.mp hor with
          | inl h2 => exact he h2
          | inr h2 => exact hmem h2)]

/-- Folding removeVHStep preserves no-duplicate keys. -/
theorem foldl_removeVH_nodup (svcName : String) :
    ∀ (names : List String) (t : List (String × VHostEntry)),
      (akeys t).Nodup → (akeys (names.foldl (removeVHStep svcName) t)).Nodup := by
  intro names
  induction names with
  | nil =>
    intro t hnd
    exact hnd
  | cons x rest ih =>
    intro t hnd
    rw [List.foldl_cons]
    exact ih _ (removeVHStep_nodup svcName t x hnd)

/-- Folding addVHStep over duplicate-free host names acts pointwise. -/
theorem foldl_addVH_lookup (svcName : String) :
    ∀ (names : List String) (t : List (String × VHostEntry)),
      names.Nodup → ∀ h,
      alookup (names.foldl (addVHStep svcName) t) h =
        if h ∈ names then addF svcName h (alookup t h) else alookup t h := by
  intro names
  induction names with
  | nil =>
    intro t hnodup h
    rw [List.foldl_nil, if_neg (List.not_mem_nil h)]
  | cons x rest ih =>
    intro t hnodup h
    rw [List.foldl_cons]
    have hx := List.nodup_cons.mp hnodup
    rw [ih (addVHStep svcName t x) hx.2 h]
    by_cases hmem : h ∈ rest
    · have hne : h ≠ x := fun he => hx.1 (he ▸ hmem)
      rw [if_pos hmem, if_pos (List.mem_cons_of_mem x hmem)]
      rw [addVHStep_lookup svcName t x h, if_neg hne]
    · rw [if_neg hmem]
      rw [addVHStep_lookup svcName t x h]
      by_cases he : h = x
      · rw [if_pos he, if_pos (he ▸ List.mem_cons_self x rest), he]
      · rw [if_neg he, if_neg (by
          intro hor
          cases List.mem_cons.mp hor with
          | inl h2 => exact he h2
          | inr h2 => exact hmem h2)]

/-- Folding addVHStep preserves no-duplicate keys. -/
theorem foldl_addVH_nodup (svcName : String) :
    ∀ (names : List String) (t : List (String × VHostEntry)),
      (akeys t).Nodup → (akeys (names.foldl (addVHStep svcName) t)).Nodup := by
  intro names
  induction names with
  | nil =>
    intro t hnd
    exact hnd
  | cons x rest ih =>
    intro t hnd
    rw [List.foldl_cons]
    exact ih _ (addVHStep_nodup svcName t x hnd)

/-- Looking up a key of an association list finds a member. -/
theorem alookup_mem {α : Type} :
    ∀ (l : List (String × α)) (k : String) (v : α),
      alookup l k = some v → (k, v) ∈ l := by
  intro l
  induction l with
  | nil =>
    intro k v h
    cases h
  | cons p rest ih =>
    intro k v h
    obtain ⟨pk, pv⟩ := p
    rw [alookup] at h
    by_cases hp : pk = k
    · rw [if_pos hp] at h
      injection h with h2
      subst hp
      subst h2
      exact List.mem_cons_self _ _
    · rw [if_neg hp] at h
      exact List.mem_cons_of_mem _ (ih k v h)

/-- On a duplicate-free association list, members are looked up. -/
theorem mem_alookup {α : Type} :
    ∀ (l : List (String × α)), (akeys l).Nodup → ∀ (k : String) (v : α),
      (k, v) ∈ l → alookup l k = some v := by
  intro l
  induction l with
  | nil =>
    intro _ k v h
    cases h
  | cons p rest ih =>
    intro hnd k v h
    obtain ⟨pk, pv⟩ := p
    rw [akeys, List.map_cons, List.nodup_cons] at hnd
    rw [alookup]
    cases List.mem_cons.mp h with
    | inl he =>
      injection he with he1 he2
      rw [if_pos he1.symm]
      rw [he2]
    | inr hm =>
      by_cases hp : pk = k
      · exfalso
        apply hnd.1
        subst hp
        exact List.mem_map.mpr ⟨(pk, v), hm, rfl⟩
      · rw [if_neg hp]
        exact ih hnd.2 k v hm

/-! ## The registry invariant (claim C8) -/

/-- Combined aset lookup. -/
theorem alookup_aset {α : Type} (l : List (String × α)) (k : String) (v : α) (m : String) :
    alookup (aset l k v) m = if m = k then some v else alookup l m := by
  by_cases he : m = k
  · subst he
    rw [if_pos rfl, alookup_aset_self]
  · rw [if_neg he, alookup_aset_ne l k m v he]

/-- The elements of a sorted Go slice. -/
theorem gsSort_toList (g : GoSlice String) : (gsSort g).toList = sortStr g.toList := by
  cases g <;> rfl

/-- The elements of a filtered Go slice. -/
theorem gsFilterEmpty_toList (g : GoSlice String) :
    (gsFilterEmpty g).toList = filterEmpty g.toList := by
  cases g <;> rfl

/-- A well-formed virtual-host name list: no duplicates and no blank
names.  On such lists filterEmpty is the identity and every diffed name
is a real table key, so none of the nil-dereference panics in the
registry code can fire. -/
def CleanHosts (l : List String) : Prop :=
  l.Nodup ∧ ∀ h ∈ l, strBlank h = false

/-- A config whose virtual-host names are well formed. -/
def CleanCfg (cfg : ServiceConfig) : Prop := CleanHosts cfg.virtualHosts.toList

/-- Sorting preserves well-formedness of a host list. -/
theorem CleanHosts_sortStr {l : List String} (h : CleanHosts l) : CleanHosts (sortStr l) := by
  refine ⟨sortStr_nodup h.1, ?_⟩
  intro x hx
  exact h.2 x ((sortStr_mem l x).mp hx)

/-- The registry invariant behind claim C8: keys of both maps are
unique; each stored service knows its own key and has a well-formed
virtual-host list; each vhost entry's service list is duplicate-free,
non-empty, and holds exactly the names of the services listing that
host; and every listed host is a key of the vhost table. -/
structure RegInv (r : Registry) : Prop where
  svcsND : (akeys r.svcs).Nodup
  vhND : (akeys r.vhosts).Nodup
  svcName : ∀ n s, alookup r.svcs n = some s → s.name = n
  svcClean : ∀ n s, alookup r.svcs n = some s → CleanHosts s.virtualHosts.toList
  vhSvcsND : ∀ h v, alookup r.vhosts h = some v → v.services.Nodup
  vhMem : ∀ h v, alookup r.vhosts h = some v → ∀ n,
    (n ∈ v.services ↔ ∃ s, alookup r.svcs n = some s ∧ h ∈ s.virtualHosts.toList)
  vhNE : ∀ h v, alookup r.vhosts h = some v → v.services ≠ []
  listedKey : ∀ n s, alookup r.svcs n = some s → ∀ h ∈ s.virtualHosts.toList,
    (alookup r.vhosts h).isSome = true

/-- The empty registry satisfies the invariant. -/
theorem inv_empty : RegInv Registry.empty := by
  refine ⟨List.nodup_nil, List.nodup_nil, ?_, ?_, ?_, ?_, ?_, ?_⟩ <;>
    (intro a b hab; cases hab)

/-- Replacing a stored service by one with the same name and
virtual-host list preserves the invariant (used for backend-only
mutations). -/
theorem inv_aset_svc (r : Registry) (hInv : RegInv r) (n : String) (s s2 : Service)
    (hs : alookup r.svcs n = some s) (hname : s2.name = s.name)
    (hvh : s2.virtualHosts = s.virtualHosts) :
    RegInv { r with svcs := aset r.svcs n s2 } := by
  constructor
  · exact akeys_aset_nodup r.svcs n s2 hInv.svcsND
  · exact hInv.vhND
  · intro m sm hm
    rw [show ({ r with svcs := aset r.svcs n s2 } : Registry).svcs = aset r.svcs n s2 from rfl,
      alookup_aset] at hm
    by_cases he : m = n
    · rw [if_pos he] at hm
      injection hm with hm2
      rw [← hm2, hname, hInv.svcName n s hs, he]
    · rw [if_neg he] at hm
      exact hInv.svcName m sm hm
  · intro m sm hm
    rw [show ({ r with svcs := aset r.svcs n s2 } : Registry).svcs = aset r.svcs n s2 from rfl,
      alookup_aset] at hm
    by_cases he : m = n
    · rw [if_pos he] at hm
      injection hm with hm2
      rw [← hm2, hvh]
      exact hInv.svcClean n s hs
    · rw [if_neg he] at hm
      exact hInv.svcClean m sm hm
  · exact hInv.vhSvcsND
  · intro h v hv m
    rw [hInv.vhMem h v hv m]
    constructor
    · intro hex
      obtain ⟨sm, hsm, hmem⟩ := hex
      by_cases he : m = n
      · subst he
        rw [hs] at hsm
        injection hsm with hsm2
        subst hsm2
        exact ⟨s2, by rw [show ({ r with svcs := aset r.svcs m s2 } : Registry).svcs =
          aset r.svcs m s2 from rfl, alookup_aset, if_pos rfl], by rw [hvh]; exact hmem⟩
      · exact ⟨sm, by rw [show ({ r with svcs := aset r.svcs n s2 } : Registry).svcs =
          aset r.svcs n s2 from rfl, alookup_aset, if_neg he]; exact hsm, hmem⟩
    · intro hex
      obtain ⟨sm, hsm, hmem⟩ := hex
      rw [show ({ r with svcs := aset r.svcs n s2 } : Registry).svcs = aset r.svcs n s2 from rfl,
        alookup_aset] at hsm
      by_cases he : m = n
      · rw [if_pos he] at hsm
        injection hsm with hsm2
        subst he
        refine ⟨s, hs, ?_⟩
        rw [← hvh, hsm2]
        exact hmem
      · rw [if_neg he] at hsm
        exact ⟨sm, hsm, hmem⟩
  · exact hInv.vhNE
  · intro m sm hm h hmem
    rw [show ({ r with svcs := aset r.svcs n s2 } : Registry).svcs = aset r.svcs n s2 from rfl,
      alookup_aset] at hm
    by_cases he : m = n
    · rw [if_pos he] at hm
      injection hm with hm2
      rw [← hm2, hvh] at hmem
      exact hInv.listedKey n s hs h hmem
    · rw [if_neg he] at hm
      exact hInv.listedKey m sm hm h hmem

/-! ## RemoveService preservation -/

/-- Lookup through the keep-or-drop filterMap used by RemoveService. -/
theorem alookup_filterMap_keep (f : String × VHostEntry → Option (String × VHostEntry))
    (keep : String → Bool) (g : VHostEntry → VHostEntry)
    (hf : ∀ q, f q = if keep q.1 then some (q.1, g q.2) else none) :
    ∀ (t : List (String × VHostEntry)), (akeys t).Nodup → ∀ h,
      alookup (t.filterMap f) h =
        (match alookup t h with
         | none => none
         | some v => if keep h then some (g v) else none) := by
  intro t
  induction t with
  | nil =>
    intro _ h
    rfl
  | cons q rest ih =>
    intro hnd h
    obtain ⟨pk, pv⟩ := q
    rw [akeys, List.map_cons, List.nodup_cons] at hnd
    rw [List.filterMap_cons, hf]
    by_cases hk : keep pk = true
    · rw [if_pos hk]
      rw [alookup, alookup]
      by_cases he : pk = h
      · subst he
        rw [if_pos rfl, if_pos rfl]
        show some (g (pk, pv).2) = if keep pk = true then some (g pv) else none
        rw [if_pos hk]
      · rw [if_neg he, if_neg he]
        exact ih hnd.2 h
    · rw [if_neg hk]
      by_cases he : pk = h
      · subst he
        rw [ih hnd.2 pk, alookup_eq_none_of_not_mem rest pk hnd.1]
        show (none : Option VHostEntry) =
          match alookup ((pk, pv) :: rest) pk with
          | none => none
          | some v => if keep pk = true then some (g v) else none
        rw [alookup, if_pos rfl]
        show (none : Option VHostEntry) = if keep pk = true then some (g pv) else none
        rw [if_neg hk]
      · rw [ih hnd.2 h, alookup, if_neg he]

/-- The keys surviving the keep-or-drop filterMap form a sublist. -/
theorem akeys_filterMap_keep (f : String × VHostEntry → Option (String × VHostEntry))
    (keep : String → Bool) (g : VHostEntry → VHostEntry)
    (hf : ∀ q, f q = if keep q.1 then some (q.1, g q.2) else none) :
    ∀ (t : List (String × VHostEntry)), (akeys (t.filterMap f)).Sublist (akeys t) := by
  intro t
  induction t with
  | nil => exact List.Sublist.refl _
  | cons q rest ih =>
    obtain ⟨pk, pv⟩ := q
    rw [List.filterMap_cons, hf]
    by_cases hk : keep pk = true
    · rw [if_pos hk]
      exact ih.cons₂ pk
    · rw [if_neg hk]
      exact ih.cons pk

/-- Lookup after aerase, combined form. -/
theorem alookup_aerase {α : Type} (l : List (String × α)) (k : String) (m : String)
    (hnd : (akeys l).Nodup) :
    alookup (aerase l k) m = if m = k then none else alookup l m := by
  by_cases he : m = k
  · subst he
    rw [if_pos rfl, alookup_aerase_self l m hnd]
  · rw [if_neg he, alookup_aerase_ne l k m he]

/-- RemoveService preserves the invariant (explicit post-state). -/
theorem inv_remove_explicit (r : Registry) (hInv : RegInv r) (name : String) (svc : Service)
    (hl : alookup r.svcs name = some svc) :
    RegInv { r with
      svcs := aerase r.svcs name
      vhosts := r.vhosts.filterMap (fun q =>
        if (aerase r.svcs name).any
            (fun p => (p.2.virtualHosts.toList).any (fun h2 => q.1 = h2)) = true then
          some (q.1, q.2.vhRemove svc.name)
        else none) } := by
  have hname : svc.name = name := hInv.svcName name svc hl
  have hndE : (akeys (aerase r.svcs name)).Nodup := akeys_aerase_nodup _ _ hInv.svcsND
  have hlookE : ∀ m, alookup (aerase r.svcs name) m =
      if m = name then none else alookup r.svcs m := fun m =>
    alookup_aerase r.svcs name m hInv.svcsND
  have hV : ∀ h, alookup (r.vhosts.filterMap (fun q =>
      if (aerase r.svcs name).any
          (fun p => (p.2.virtualHosts.toList).any (fun h2 => q.1 = h2)) = true then
        some (q.1, q.2.vhRemove svc.name)
      else none)) h =
      (match alookup r.vhosts h with
       | none => none
       | some v =>
         if (aerase r.svcs name).any
             (fun p => (p.2.virtualHosts.toList).any (fun h2 => h = h2)) = true then
           some (v.vhRemove svc.name)
         else none) :=
    alookup_filterMap_keep _
      (fun x => (aerase r.svcs name).any
        (fun p => (p.2.virtualHosts.toList).any (fun h2 => x = h2)))
      (fun v => v.vhRemove svc.name) (fun q => rfl) r.vhosts hInv.vhND
  have hkeepIff : ∀ h, ((aerase r.svcs name).any
        (fun p => (p.2.virtualHosts.toList).any (fun h2 => h = h2)) = true) ↔
      ∃ n2 s, alookup (aerase r.svcs name) n2 = some s ∧ h ∈ s.virtualHosts.toList := by
    intro h
    rw [List.any_eq_true]
    constructor
    · intro hex
      obtain ⟨p, hp, hp2⟩ := hex
      rw [List.any_eq_true] at hp2
      obtain ⟨h2, hh2, he⟩ := hp2
      rw [decide_eq_true_eq] at he
      subst he
      exact ⟨p.1, p.2, mem_alookup _ hndE p.1 p.2 hp, hh2⟩
    · intro hex
      obtain ⟨n2, s, hs, hmem⟩ := hex
      refine ⟨(n2, s), alookup_mem _ _ _ hs, ?_⟩
      rw [List.any_eq_true]
      exact ⟨h, hmem, by rw [decide_eq_true_eq]⟩
  constructor
  · exact hndE
  · exact (akeys_filterMap_keep _
      (fun x => (aerase r.svcs name).any
        (fun p => (p.2.virtualHosts.toList).any (fun h2 => x = h2)))
      (fun v => v.vhRemove svc.name) (fun q => rfl) r.vhosts).nodup hInv.vhND
  · intro m sm hm
    have hm2 := (hlookE m).symm.trans hm
    by_cases he : m = name
    · rw [if_pos he] at hm2
      cases hm2
    · rw [if_neg he] at hm2
      exact hInv.svcName m sm hm2
  · intro m sm hm
    have hm2 := (hlookE m).symm.trans hm
    by_cases he : m = name
    · rw [if_pos he] at hm2
      cases hm2
    · rw [if_neg he] at hm2
      exact hInv.svcClean m sm hm2
  · intro h v hv
    have hv2 := (hV h).symm.trans hv
    cases hl0 : alookup r.vhosts h with
    | none =>
      rw [hl0] at hv2
      cases hv2
    | some v0 =>
      rw [hl0] at hv2
      have hv3 : (if (aerase r.svcs name).any
          (fun p => (p.2.virtualHosts.toList).any (fun h2 => h = h2)) = true then
            some (v0.vhRemove svc.name)
          else none) = some v := hv2
      by_cases hk : ((aerase r.svcs name).any
          (fun p => (p.2.virtualHosts.toList).any (fun h2 => h = h2)) = true)
      · rw [if_pos hk] at hv3
        injection hv3 with hv4
        rw [← hv4]
        exact vhRemove_nodup v0 svc.name (hInv.vhSvcsND h v0 hl0)
      · rw [if_neg hk] at hv3
        cases hv3
  · intro h v hv n
    have hv2 := (hV h).symm.trans hv
    cases hl0 : alookup r.vhosts h with
    | none =>
      rw [hl0] at hv2
      cases hv2
    | some v0 =>
      rw [hl0] at hv2
      have hv3 : (if (aerase r.svcs name).any
          (fun p => (p.2.virtualHosts.toList).any (fun h2 => h = h2)) = true then
            some (v0.vhRemove svc.name)
          else none) = some v := hv2
      by_cases hk : ((aerase r.svcs name).any
          (fun p => (p.2.virtualHosts.toList).any (fun h2 => h = h2)) = true)
      · rw [if_pos hk] at hv3
        injection hv3 with hv4
        rw [← hv4]
        rw [vhRemove_mem v0 svc.name n (hInv.vhSvcsND h v0 hl0)]
        rw [hInv.vhMem h v0 hl0 n]
        constructor
        · intro hand
          obtain ⟨⟨s, hs, hmem⟩, hne⟩ := hand
          refine ⟨s, ?_, hmem⟩
          rw [hlookE n, if_neg (by rw [← hname]; exact hne)]
          exact hs
        · intro hex
          obtain ⟨s, hs, hmem⟩ := hex
          rw [hlookE n] at hs
          by_cases he : n = name
          · rw [if_pos he] at hs
            cases hs
          · rw [if_neg he] at hs
            exact ⟨⟨s, hs, hmem⟩, by rw [hname]; exact he⟩
      · rw [if_neg hk] at hv3
        cases hv3
  · intro h v hv
    have hv2 := (hV h).symm.trans hv
    cases hl0 : alookup r.vhosts h with
    | none =>
      rw [hl0] at hv2
      cases hv2
    | some v0 =>
      rw [hl0] at hv2
      have hv3 : (if (aerase r.svcs name).any
          (fun p => (p.2.virtualHosts.toList).any (fun h2 => h = h2)) = true then
            some (v0.vhRemove svc.name)
          else none) = some v := hv2
      by_cases hk : ((aerase r.svcs name).any
          (fun p => (p.2.virtualHosts.toList).any (fun h2 => h = h2)) = true)
      · rw [if_pos hk] at hv3
        injection hv3 with hv4
        obtain ⟨n2, s, hs, hmem⟩ := (hkeepIff h).mp hk
        have hne : n2 ≠ name := by
          intro he
          rw [he, hlookE name, if_pos rfl] at hs
          cases hs
        have hsOld : alookup r.svcs n2 = some s := by
          rw [hlookE n2, if_neg hne] at hs
          exact hs
        have hn2v0 : n2 ∈ v0.services :=
          (hInv.vhMem h v0 hl0 n2).mpr ⟨s, hsOld, hmem⟩
        have : n2 ∈ v.services := by
          rw [← hv4]
          rw [vhRemove_mem v0 svc.name n2 (hInv.vhSvcsND h v0 hl0)]
          exact ⟨hn2v0, by rw [hname]; exact hne⟩
        exact List.ne_nil_of_mem this
      · rw [if_neg hk] at hv3
        cases hv3
  · intro n s hn h hmem
    have hn2 := (hlookE n).symm.trans hn
    by_cases he : n = name
    · rw [if_pos he] at hn2
      cases hn2
    · rw [if_neg he] at hn2
      have hOld := hInv.listedKey n s hn2 h hmem
      cases hl0 : alookup r.vhosts h with
      | none =>
        rw [hl0] at hOld
        cases hOld
      | some v0 =>
        have hk : ((aerase r.svcs name).any
            (fun p => (p.2.virtualHosts.toList).any (fun h2 => h = h2)) = true) :=
          (hkeepIff h).mpr ⟨n, s, hn, hmem⟩
        rw [Option.isSome_iff_exists]
        refine ⟨v0.vhRemove svc.name, ?_⟩
        refine (hV h).trans ?_
        rw [hl0]
        show (if ((aerase r.svcs name).any
            (fun p => (p.2.virtualHosts.toList).any (fun h2 => h = h2)) = true) then
          some (v0.vhRemove svc.name) else none) = some (v0.vhRemove svc.name)
        rw [if_pos hk]

/-- RemoveService preserves the invariant. -/
theorem inv_removeService (r : Registry) (hInv : RegInv r) (name : String) :
    RegInv (r.removeService name).1 := by
  rw [Registry.removeService]
  cases hl : alookup r.svcs name with
  | none => exact hInv
  | some svc => exact inv_remove_explicit r hInv name svc hl

/-! ## AddService preservation -/

/-- Service.add leaves the service's name unchanged. -/
theorem add_name (s : Service) (b : Backend) : ((s.add b).1).name = s.name := by
  rw [Service.add]
  cases s.backends.findIdx? (fun b2 => b2.name = b.name) <;> rfl

/-- Service.add leaves the service's virtual hosts unchanged. -/
theorem add_virtualHosts (s : Service) (b : Backend) :
    ((s.add b).1).virtualHosts = s.virtualHosts := by
  rw [Service.add]
  cases s.backends.findIdx? (fun b2 => b2.name = b.name) <;> rfl

/-- Folding backend additions leaves name and virtual hosts unchanged. -/
theorem foldl_add_fields :
    ∀ (bs : List BackendConfig) (s : Service),
      (bs.foldl (fun s b => (s.add (NewBackend b)).1) s).name = s.name ∧
      (bs.foldl (fun s b => (s.add (NewBackend b)).1) s).virtualHosts = s.virtualHosts := by
  intro bs
  induction bs with
  | nil => intro s; exact ⟨rfl, rfl⟩
  | cons b rest ih =>
    intro s
    rw [List.foldl_cons]
    refine ⟨(ih _).1.trans (add_name s (NewBackend b)), (ih _).2.trans (add_virtualHosts s (NewBackend b))⟩

/-- NewService keeps the configured name. -/
theorem NewService_name (cfg : ServiceConfig) : (NewService cfg).name = cfg.name := by
  rw [NewService]
  refine (foldl_add_fields _ _).1.trans ?_
  simp only [apply_ite Service.name, ite_self]

/-- NewService keeps the configured virtual hosts. -/
theorem NewService_virtualHosts (cfg : ServiceConfig) :
    (NewService cfg).virtualHosts = cfg.virtualHosts := by
  rw [NewService]
  refine (foldl_add_fields _ _).2.trans ?_
  simp only [apply_ite Service.virtualHosts, ite_self]

/-- setServiceDefaults keeps the name. -/
theorem setServiceDefaults_name (r : Registry) (cfg : ServiceConfig) :
    (r.setServiceDefaults cfg).name = cfg.name := by
  simp only [Registry.setServiceDefaults, apply_ite ServiceConfig.name, ite_self]

/-- setServiceDefaults keeps the virtual hosts. -/
theorem setServiceDefaults_virtualHosts (r : Registry) (cfg : ServiceConfig) :
    (r.setServiceDefaults cfg).virtualHosts = cfg.virtualHosts := by
  simp only [Registry.setServiceDefaults, apply_ite ServiceConfig.virtualHosts, ite_self]

/-- SetDefaults keeps the name. -/
theorem SetDefaults_name (cfg : ServiceConfig) : cfg.SetDefaults.name = cfg.name := by
  simp only [ServiceConfig.SetDefaults, apply_ite ServiceConfig.name, ite_self]

/-- SetDefaults keeps the virtual hosts. -/
theorem SetDefaults_virtualHosts (cfg : ServiceConfig) :
    cfg.SetDefaults.virtualHosts = cfg.virtualHosts := by
  simp only [ServiceConfig.SetDefaults, apply_ite ServiceConfig.virtualHosts, ite_self]

/-- Installing a fresh service and registering its (well-formed) hosts
preserves the invariant (explicit post-state). -/
theorem inv_add_explicit (r : Registry) (hInv : RegInv r) (key : String) (service : Service)
    (hfresh : alookup r.svcs key = none)
    (hkey : service.name = key)
    (hclean : CleanHosts service.virtualHosts.toList) :
    RegInv { r with
      svcs := aset r.svcs key service
      vhosts := (service.virtualHosts.toList).foldl (addVHStep key) r.vhosts } := by
  have hlookS : ∀ m, alookup (aset r.svcs key service) m =
      if m = key then some service else alookup r.svcs m := fun m =>
    alookup_aset r.svcs key service m
  have hlookV : ∀ h, alookup ((service.virtualHosts.toList).foldl (addVHStep key) r.vhosts) h =
      if h ∈ service.virtualHosts.toList then addF key h (alookup r.vhosts h)
      else alookup r.vhosts h := fun h =>
    foldl_addVH_lookup key service.virtualHosts.toList r.vhosts hclean.1 h
  have hOldNone : ∀ h, h ∈ service.virtualHosts.toList → alookup r.vhosts h = none →
      ∀ n, ¬ ∃ s, alookup r.svcs n = some s ∧ h ∈ s.virtualHosts.toList := by
    intro h _ hnone n hex
    obtain ⟨s, hs, hmem⟩ := hex
    have := hInv.listedKey n s hs h hmem
    rw [hnone] at this
    cases this
  constructor
  · exact akeys_aset_nodup r.svcs key service hInv.svcsND
  · exact foldl_addVH_nodup key service.virtualHosts.toList r.vhosts hInv.vhND
  · intro m sm hm
    have hm2 := (hlookS m).symm.trans hm
    by_cases he : m = key
    · rw [if_pos he] at hm2
      injection hm2 with hm3
      rw [← hm3, hkey, he]
    · rw [if_neg he] at hm2
      exact hInv.svcName m sm hm2
  · intro m sm hm
    have hm2 := (hlookS m).symm.trans hm
    by_cases he : m = key
    · rw [if_pos he] at hm2
      injection hm2 with hm3
      rw [← hm3]
      exact hclean
    · rw [if_neg he] at hm2
      exact hInv.svcClean m sm hm2
  · intro h v hv
    have hv2 := (hlookV h).symm.trans hv
    by_cases hmem : h ∈ service.virtualHosts.toList
    · rw [if_pos hmem] at hv2
      cases hl0 : alookup r.vhosts h with
      | none =>
        rw [hl0] at hv2
        injection hv2 with hv3
        rw [← hv3]
        exact vhAdd_nodup _ key List.nodup_nil
      | some v0 =>
        rw [hl0] at hv2
        injection hv2 with hv3
        rw [← hv3]
        exact vhAdd_nodup v0 key (hInv.vhSvcsND h v0 hl0)
    · rw [if_neg hmem] at hv2
      exact hInv.vhSvcsND h v hv2
  · intro h v hv n
    have hv2 := (hlookV h).symm.trans hv
    have hRHS : (∃ s, alookup (aset r.svcs key service) n = some s ∧
        h ∈ s.virtualHosts.toList) ↔
        (if n = key then h ∈ service.virtualHosts.toList
         else ∃ s, alookup r.svcs n = some s ∧ h ∈ s.virtualHosts.toList) := by
      by_cases he : n = key
      · rw [if_pos he]
        constructor
        · intro hex
          obtain ⟨s, hs, hmem2⟩ := hex
          have hs2 := (hlookS n).symm.trans hs
          rw [if_pos he] at hs2
          injection hs2 with hs3
          rw [hs3]
          exact hmem2
        · intro hmem2
          exact ⟨service, by rw [hlookS n, if_pos he], hmem2⟩
      · rw [if_neg he]
        constructor
        · intro hex
          obtain ⟨s, hs, hmem2⟩ := hex
          have hs2 := (hlookS n).symm.trans hs
          rw [if_neg he] at hs2
          exact ⟨s, hs2, hmem2⟩
        · intro hex
          obtain ⟨s, hs, hmem2⟩ := hex
          exact ⟨s, by rw [hlookS n, if_neg he]; exact hs, hmem2⟩
    show n ∈ v.services ↔
      ∃ s, alookup (aset r.svcs key service) n = some s ∧ h ∈ s.virtualHosts.toList
    rw [hRHS]
    by_cases hmem : h ∈ service.virtualHosts.toList
    · rw [if_pos hmem] at hv2
      cases hl0 : alookup r.vhosts h with
      | none =>
        rw [hl0] at hv2
        injection hv2 with hv3
        rw [← hv3]
        rw [vhAdd_mem]
        constructor
        · intro hor
          cases hor with
          | inl hm => cases hm
          | inr he =>
            rw [if_pos he]
            exact hmem
        · intro hif
          by_cases he : n = key
          · exact Or.inr he
          · rw [if_neg he] at hif
            exact absurd hif (hOldNone h hmem hl0 n)
      | some v0 =>
        rw [hl0] at hv2
        injection hv2 with hv3
        rw [← hv3]
        rw [vhAdd_mem]
        rw [hInv.vhMem h v0 hl0 n]
        constructor
        · intro hor
          cases hor with
          | inl hm =>
            by_cases he : n = key
            · rw [if_pos he]
              exact hmem
            · rw [if_neg he]
              exact hm
          | inr he =>
            rw [if_pos he]
            exact hmem
        · intro hif
          by_cases he : n = key
          · exact Or.inr he
          · rw [if_neg he] at hif
            exact Or.inl hif
    · rw [if_neg hmem] at hv2
      rw [hInv.vhMem h v hv2 n]
      by_cases he : n = key
      · rw [if_pos he]
        constructor
        · intro hex
          obtain ⟨s, hs, hmem2⟩ := hex
          rw [he] at hs
          rw [hfresh] at hs
          cases hs
        · intro hmem2
          exact absurd hmem2 hmem
      · rw [if_neg he]
  · intro h v hv
    have hv2 := (hlookV h).symm.trans hv
    by_cases hmem : h ∈ service.virtualHosts.toList
    · rw [if_pos hmem] at hv2
      cases hl0 : alookup r.vhosts h with
      | none =>
        rw [hl0] at hv2
        injection hv2 with hv3
        rw [← hv3]
        exact vhAdd_ne_nil _ key
      | some v0 =>
        rw [hl0] at hv2
        injection hv2 with hv3
        rw [← hv3]
        exact vhAdd_ne_nil v0 key
    · rw [if_neg hmem] at hv2
      exact hInv.vhNE h v hv2
  · intro n s hn h hmem
    have hn2 := (hlookS n).symm.trans hn
    show (alookup ((service.virtualHosts.toList).foldl (addVHStep key) r.vhosts) h).isSome = true
    rw [hlookV h]
    by_cases he : n = key
    · rw [if_pos he] at hn2
      injection hn2 with hn3
      rw [← hn3] at hmem
      rw [if_pos hmem]
      exact addF_isSome key h _
    · rw [if_neg he] at hn2
      have hOld := hInv.listedKey n s hn2 h hmem
      by_cases hmem2 : h ∈ service.virtualHosts.toList
      · rw [if_pos hmem2]
        exact addF_isSome key h _
      · rw [if_neg hmem2]
        exact hOld

/-- AddService preserves the invariant. -/
theorem inv_addService (r : Registry) (hInv : RegInv r) (cfg : ServiceConfig)
    (hclean : CleanCfg cfg) : RegInv (r.addService cfg).1 := by
  cases hl : alookup r.svcs cfg.name with
  | some s =>
    have hstate : (r.addService cfg).1 = r := by
      simp only [Registry.addService, hl]
    rw [hstate]
    exact hInv
  | none =>
    by_cases hnet : ((NewService ((r.setServiceDefaults cfg).SetDefaults)).network = "tcp" ∨
        (NewService ((r.setServiceDefaults cfg).SetDefaults)).network = "tcp4" ∨
        (NewService ((r.setServiceDefaults cfg).SetDefaults)).network = "tcp6" ∨
        (NewService ((r.setServiceDefaults cfg).SetDefaults)).network = "udp" ∨
        (NewService ((r.setServiceDefaults cfg).SetDefaults)).network = "udp4" ∨
        (NewService ((r.setServiceDefaults cfg).SetDefaults)).network = "udp6")
    · have hstate : (r.addService cfg).1 = { r with
          svcs := aset r.svcs (NewService ((r.setServiceDefaults cfg).SetDefaults)).name
            (NewService ((r.setServiceDefaults cfg).SetDefaults))
          vhosts := (filterEmpty (((r.setServiceDefaults cfg).SetDefaults).virtualHosts.toList)).foldl
            (addVHStep (NewService ((r.setServiceDefaults cfg).SetDefaults)).name) r.vhosts } := by
        simp only [Registry.addService, hl, if_pos hnet]
      have hvhcfg : ((r.setServiceDefaults cfg).SetDefaults).virtualHosts = cfg.virtualHosts :=
        (SetDefaults_virtualHosts _).trans (setServiceDefaults_virtualHosts r cfg)
      have hvh : (NewService ((r.setServiceDefaults cfg).SetDefaults)).virtualHosts =
          cfg.virtualHosts :=
        (NewService_virtualHosts _).trans hvhcfg
      have hn : (NewService ((r.setServiceDefaults cfg).SetDefaults)).name = cfg.name :=
        (NewService_name _).trans ((SetDefaults_name _).trans (setServiceDefaults_name r cfg))
      have hfe : filterEmpty (((r.setServiceDefaults cfg).SetDefaults).virtualHosts.toList) =
          (NewService ((r.setServiceDefaults cfg).SetDefaults)).virtualHosts.toList := by
        rw [hvhcfg, hvh]
        exact filterEmpty_eq_self hclean.2
      rw [hstate, hn, hfe]
      refine inv_add_explicit r hInv cfg.name (NewService ((r.setServiceDefaults cfg).SetDefaults))
        hl ?_ ?_
      · rw [(NewService_name _), (SetDefaults_name _), (setServiceDefaults_name r cfg)]
      · rw [hvh]
        exact hclean
    · have hstate : (r.addService cfg).1 = r := by
        simp only [Registry.addService, hl, if_neg hnet]
      rw [hstate]
      exact hInv

/-! ## updateVHosts preservation -/

/-- filterEmpty preserves well-formedness (it is the identity there). -/
theorem CleanHosts_filterEmpty {l : List String} (h : CleanHosts l) :
    CleanHosts (filterEmpty l) := by
  rw [filterEmpty_eq_self h.2]
  exact h

/-- The updateVHosts transformation preserves the invariant (explicit
post-state: the re-stored service and the diffed vhost table). -/
theorem inv_updateVHosts_explicit (r : Registry) (hInv : RegInv r) (key : String)
    (s0 : Service) (hs : alookup r.svcs key = some s0)
    (service : Service) (hname : service.name = key)
    (hvh : service.virtualHosts = s0.virtualHosts)
    (newHosts : GoSlice String) (hcleanN : CleanHosts newHosts.toList)
    (svcNew : Service)
    (hsvcNew : svcNew = { service with virtualHosts := gsSort newHosts }) :
    RegInv { r with
      svcs := aset r.svcs key svcNew
      vhosts :=
        ((diffMerge (sortStr service.virtualHosts.toList) ((gsSort newHosts).toList)).2).foldl
          (addVHStep service.name)
          (((diffMerge (sortStr service.virtualHosts.toList) ((gsSort newHosts).toList)).1).foldl
            (removeVHStep service.name) r.vhosts) } := by
  rw [hname]
  have hsvcNewName : svcNew.name = key := by
    rw [hsvcNew]
    show service.name = key
    exact hname
  have hsvcNewVH : svcNew.virtualHosts = gsSort newHosts := by
    rw [hsvcNew]
  have hcleanO : CleanHosts s0.virtualHosts.toList := hInv.svcClean key s0 hs
  have hcleanOL : CleanHosts service.virtualHosts.toList := by
    rw [hvh]
    exact hcleanO
  have hndOS : (sortStr service.virtualHosts.toList).Nodup := sortStr_nodup hcleanOL.1
  have hndNS : ((gsSort newHosts).toList).Nodup := by
    rw [gsSort_toList]
    exact sortStr_nodup hcleanN.1
  have hpO : (sortStr service.virtualHosts.toList).Pairwise (fun a b => strLtB a b = true) :=
    pairwise_lt_of_sorted_nodup (sortStr_sorted _) hndOS
  have hpN : ((gsSort newHosts).toList).Pairwise (fun a b => strLtB a b = true) := by
    rw [gsSort_toList]
    exact pairwise_lt_of_sorted_nodup (sortStr_sorted _) (sortStr_nodup hcleanN.1)
  have hmemO : ∀ x, x ∈ sortStr service.virtualHosts.toList ↔ x ∈ s0.virtualHosts.toList := by
    intro x
    rw [sortStr_mem, hvh]
  have hmemN : ∀ x, x ∈ (gsSort newHosts).toList ↔ x ∈ newHosts.toList := by
    intro x
    rw [gsSort_toList, sortStr_mem]
  have hmemNew : ∀ x, x ∈ svcNew.virtualHosts.toList ↔ x ∈ newHosts.toList := by
    intro x
    rw [hsvcNewVH]
    exact hmemN x
  have hrm : ∀ x, x ∈ (diffMerge (sortStr service.virtualHosts.toList)
      ((gsSort newHosts).toList)).1 ↔
      x ∈ sortStr service.virtualHosts.toList ∧ ¬ x ∈ (gsSort newHosts).toList := fun x =>
    (diffMergeGo_mem _ _ _ (Nat.le_refl _) hpO hpN x).1
  have had : ∀ x, x ∈ (diffMerge (sortStr service.virtualHosts.toList)
      ((gsSort newHosts).toList)).2 ↔
      x ∈ (gsSort newHosts).toList ∧ ¬ x ∈ sortStr service.virtualHosts.toList := fun x =>
    (diffMergeGo_mem _ _ _ (Nat.le_refl _) hpO hpN x).2
  have hrmND : ((diffMerge (sortStr service.virtualHosts.toList)
      ((gsSort newHosts).toList)).1).Nodup :=
    (diffMergeGo_sublist _ _ _).1.nodup hndOS
  have hadND : ((diffMerge (sortStr service.virtualHosts.toList)
      ((gsSort newHosts).toList)).2).Nodup :=
    (diffMergeGo_sublist _ _ _).2.nodup hndNS
  have hnd1 : (akeys (((diffMerge (sortStr service.virtualHosts.toList)
      ((gsSort newHosts).toList)).1).foldl (removeVHStep key) r.vhosts)).Nodup :=
    foldl_removeVH_nodup key _ r.vhosts hInv.vhND
  have hlook1 : ∀ h, alookup (((diffMerge (sortStr service.virtualHosts.toList)
      ((gsSort newHosts).toList)).1).foldl (removeVHStep key) r.vhosts) h =
      if h ∈ (diffMerge (sortStr service.virtualHosts.toList)
          ((gsSort newHosts).toList)).1 then
        remF key (alookup r.vhosts h)
      else alookup r.vhosts h :=
    foldl_removeVH_lookup key _ r.vhosts hInv.vhND hrmND
  have hlook2 : ∀ h, alookup (((diffMerge (sortStr service.virtualHosts.toList)
      ((gsSort newHosts).toList)).2).foldl (addVHStep key)
        (((diffMerge (sortStr service.virtualHosts.toList)
          ((gsSort newHosts).toList)).1).foldl (removeVHStep key) r.vhosts)) h =
      if h ∈ (diffMerge (sortStr service.virtualHosts.toList)
          ((gsSort newHosts).toList)).2 then
        addF key h (alookup (((diffMerge (sortStr service.virtualHosts.toList)
          ((gsSort newHosts).toList)).1).foldl (removeVHStep key) r.vhosts) h)
      else alookup (((diffMerge (sortStr service.virtualHosts.toList)
        ((gsSort newHosts).toList)).1).foldl (removeVHStep key) r.vhosts) h :=
    foldl_addVH_lookup key _ _ hadND
  have hlook : ∀ h, alookup (((diffMerge (sortStr service.virtualHosts.toList)
      ((gsSort newHosts).toList)).2).foldl (addVHStep key)
        (((diffMerge (sortStr service.virtualHosts.toList)
          ((gsSort newHosts).toList)).1).foldl (removeVHStep key) r.vhosts)) h =
      if h ∈ (diffMerge (sortStr service.virtualHosts.toList)
          ((gsSort newHosts).toList)).1 then
        remF key (alookup r.vhosts h)
      else if h ∈ (diffMerge (sortStr service.virtualHosts.toList)
          ((gsSort newHosts).toList)).2 then
        addF key h (alookup r.vhosts h)
      else alookup r.vhosts h := by
    intro h
    rw [hlook2 h]
    by_cases h1 : h ∈ (diffMerge (sortStr service.virtualHosts.toList)
        ((gsSort newHosts).toList)).1
    · have h2 : ¬ h ∈ (diffMerge (sortStr service.virtualHosts.toList)
          ((gsSort newHosts).toList)).2 := fun hin =>
        ((had h).mp hin).2 (((hrm h).mp h1).1)
      have hv1 : alookup (((diffMerge (sortStr service.virtualHosts.toList)
          ((gsSort newHosts).toList)).1).foldl (removeVHStep key) r.vhosts) h =
          remF key (alookup r.vhosts h) := by
        rw [hlook1 h, if_pos h1]
      rw [if_neg h2, hv1, if_pos h1]
    · have hv1 : alookup (((diffMerge (sortStr service.virtualHosts.toList)
          ((gsSort newHosts).toList)).1).foldl (removeVHStep key) r.vhosts) h =
          alookup r.vhosts h := by
        rw [hlook1 h, if_neg h1]
      rw [hv1, if_neg h1]
  have hlookS : ∀ m, alookup (aset r.svcs key svcNew) m =
      if m = key then some svcNew else alookup r.svcs m := fun m =>
    alookup_aset r.svcs key svcNew m
  have hOldKey : ∀ h, (∃ s, alookup r.svcs key = some s ∧ h ∈ s.virtualHosts.toList) ↔
      h ∈ s0.virtualHosts.toList := by
    intro h
    constructor
    · intro hex
      obtain ⟨s, hs2, hm⟩ := hex
      rw [hs] at hs2
      injection hs2 with he
      rw [← he] at hm
      exact hm
    · intro hm
      exact ⟨s0, hs, hm⟩
  have hRHS : ∀ h n, (∃ s, alookup (aset r.svcs key svcNew) n = some s ∧
        h ∈ s.virtualHosts.toList) ↔
      (if n = key then h ∈ newHosts.toList
       else ∃ s, alookup r.svcs n = some s ∧ h ∈ s.virtualHosts.toList) := by
    intro h n
    by_cases he : n = key
    · rw [if_pos he]
      constructor
      · intro hex
        obtain ⟨s, hs2, hm⟩ := hex
        have hs3 := (hlookS n).symm.trans hs2
        rw [if_pos he] at hs3
        injection hs3 with hs4
        rw [← hs4] at hm
        exact (hmemNew h).mp hm
      · intro hm
        refine ⟨svcNew, ?_, (hmemNew h).mpr hm⟩
        rw [hlookS n, if_pos he]
    · rw [if_neg he]
      constructor
      · intro hex
        obtain ⟨s, hs2, hm⟩ := hex
        have hs3 := (hlookS n).symm.trans hs2
        rw [if_neg he] at hs3
        exact ⟨s, hs3, hm⟩
      · intro hex
        obtain ⟨s, hs2, hm⟩ := hex
        refine ⟨s, ?_, hm⟩
        rw [hlookS n, if_neg he]
        exact hs2
  constructor
  · exact akeys_aset_nodup r.svcs key _ hInv.svcsND
  · exact foldl_addVH_nodup key _ _ hnd1
  · intro m sm hm
    have hm2 := (hlookS m).symm.trans hm
    by_cases he : m = key
    · rw [if_pos he] at hm2
      injection hm2 with hm3
      rw [← hm3, he]
      exact hsvcNewName
    · rw [if_neg he] at hm2
      exact hInv.svcName m sm hm2
  · intro m sm hm
    have hm2 := (hlookS m).symm.trans hm
    by_cases he : m = key
    · rw [if_pos he] at hm2
      injection hm2 with hm3
      rw [← hm3, hsvcNewVH, gsSort_toList]
      exact CleanHosts_sortStr hcleanN
    · rw [if_neg he] at hm2
      exact hInv.svcClean m sm hm2
  · intro h v hv
    have hv2 := (hlook h).symm.trans hv
    by_cases h1 : h ∈ (diffMerge (sortStr service.virtualHosts.toList)
        ((gsSort newHosts).toList)).1
    · rw [if_pos h1] at hv2
      cases hl0 : alookup r.vhosts h with
      | none =>
        rw [hl0] at hv2
        cases hv2
      | some v0 =>
        rw [hl0] at hv2
        have hv3 : (if ((v0.vhRemove key).services.length = 0) then none
            else some (v0.vhRemove key)) = some v := hv2
        by_cases hz : ((v0.vhRemove key).services.length = 0)
        · rw [if_pos hz] at hv3
          cases hv3
        · rw [if_neg hz] at hv3
          injection hv3 with hv4
          rw [← hv4]
          exact vhRemove_nodup v0 key (hInv.vhSvcsND h v0 hl0)
    · rw [if_neg h1] at hv2
      by_cases h2 : h ∈ (diffMerge (sortStr service.virtualHosts.toList)
          ((gsSort newHosts).toList)).2
      · rw [if_pos h2] at hv2
        cases hl0 : alookup r.vhosts h with
        | none =>
          rw [hl0] at hv2
          injection hv2 with hv3
          rw [← hv3]
          exact vhAdd_nodup _ key List.nodup_nil
        | some v0 =>
          rw [hl0] at hv2
          injection hv2 with hv3
          rw [← hv3]
          exact vhAdd_nodup v0 key (hInv.vhSvcsND h v0 hl0)
      · rw [if_neg h2] at hv2
        exact hInv.vhSvcsND h v hv2
  · intro h v hv n
    have hv2 := (hlook h).symm.trans hv
    show n ∈ v.services ↔
      ∃ s, alookup (aset r.svcs key svcNew) n = some s ∧ h ∈ s.virtualHosts.toList
    rw [hRHS h n]
    by_cases h1 : h ∈ (diffMerge (sortStr service.virtualHosts.toList)
        ((gsSort newHosts).toList)).1
    · have hNotNew : ¬ h ∈ newHosts.toList := fun hm =>
        ((hrm h).mp h1).2 ((hmemN h).mpr hm)
      rw [if_pos h1] at hv2
      cases hl0 : alookup r.vhosts h with
      | none =>
        rw [hl0] at hv2
        cases hv2
      | some v0 =>
        rw [hl0] at hv2
        have hv3 : (if ((v0.vhRemove key).services.length = 0) then none
            else some (v0.vhRemove key)) = some v := hv2
        by_cases hz : ((v0.vhRemove key).services.length = 0)
        · rw [if_pos hz] at hv3
          cases hv3
        · rw [if_neg hz] at hv3
          injection hv3 with hv4
          rw [← hv4]
          rw [vhRemove_mem v0 key n (hInv.vhSvcsND h v0 hl0)]
          rw [hInv.vhMem h v0 hl0 n]
          by_cases he : n = key
          · rw [if_pos he]
            constructor
            · intro hand
              exact absurd he hand.2
            · intro hm
              exact absurd hm hNotNew
          · rw [if_neg he]
            constructor
            · intro hand
              exact hand.1
            · intro hex
              exact ⟨hex, he⟩
    · rw [if_neg h1] at hv2
      by_cases h2 : h ∈ (diffMerge (sortStr service.virtualHosts.toList)
          ((gsSort newHosts).toList)).2
      · have hInNew : h ∈ newHosts.toList := (hmemN h).mp ((had h).mp h2).1
        rw [if_pos h2] at hv2
        cases hl0 : alookup r.vhosts h with
        | none =>
          rw [hl0] at hv2
          injection hv2 with hv3
          rw [← hv3]
          rw [vhAdd_mem]
          by_cases he : n = key
          · rw [if_pos he]
            constructor
            · intro _
              exact hInNew
            · intro _
              exact Or.inr he
          · rw [if_neg he]
            constructor
            · intro hor
              cases hor with
              | inl hm => cases hm
              | inr hm => exact absurd hm he
            · intro hex
              obtain ⟨s, hs2, hm⟩ := hex
              have := hInv.listedKey n s hs2 h hm
              rw [hl0] at this
              cases this
        | some v0 =>
          rw [hl0] at hv2
          injection hv2 with hv3
          rw [← hv3]
          rw [vhAdd_mem]
          rw [hInv.vhMem h v0 hl0 n]
          by_cases he : n = key
          · rw [if_pos he]
            constructor
            · intro _
              exact hInNew
            · intro _
              exact Or.inr he
          · rw [if_neg he]
            constructor
            · intro hor
              cases hor with
              | inl hm => exact hm
              | inr hm => exact absurd hm he
            · intro hex
              exact Or.inl hex
      · rw [if_neg h2] at hv2
        have hIff : h ∈ s0.virtualHosts.toList ↔ h ∈ newHosts.toList := by
          constructor
          · intro hm
            by_contra hnm
            exact h1 ((hrm h).mpr ⟨(hmemO h).mpr hm, fun hm2 => hnm ((hmemN h).mp hm2)⟩)
          · intro hm
            by_contra hnm
            exact h2 ((had h).mpr ⟨(hmemN h).mpr hm, fun hm2 => hnm ((hmemO h).mp hm2)⟩)
        rw [hInv.vhMem h v hv2 n]
        by_cases he : n = key
        · rw [if_pos he]
          rw [he, hOldKey h]
          exact hIff
        · rw [if_neg he]
  · intro h v hv
    have hv2 := (hlook h).symm.trans hv
    by_cases h1 : h ∈ (diffMerge (sortStr service.virtualHosts.toList)
        ((gsSort newHosts).toList)).1
    · rw [if_pos h1] at hv2
      cases hl0 : alookup r.vhosts h with
      | none =>
        rw [hl0] at hv2
        cases hv2
      | some v0 =>
        rw [hl0] at hv2
        have hv3 : (if ((v0.vhRemove key).services.length = 0) then none
            else some (v0.vhRemove key)) = some v := hv2
        by_cases hz : ((v0.vhRemove key).services.length = 0)
        · rw [if_pos hz] at hv3
          cases hv3
        · rw [if_neg hz] at hv3
          injection hv3 with hv4
          rw [← hv4]
          intro he
          rw [he] at hz
          exact hz rfl
    · rw [if_neg h1] at hv2
      by_cases h2 : h ∈ (diffMerge (sortStr service.virtualHosts.toList)
          ((gsSort newHosts).toList)).2
      · rw [if_pos h2] at hv2
        cases hl0 : alookup r.vhosts h with
        | none =>
          rw [hl0] at hv2
          injection hv2 with hv3
          rw [← hv3]
          exact vhAdd_ne_nil _ key
        | some v0 =>
          rw [hl0] at hv2
          injection hv2 with hv3
          rw [← hv3]
          exact vhAdd_ne_nil v0 key
      · rw [if_neg h2] at hv2
        exact hInv.vhNE h v hv2
  · intro n s hn h hmem
    have hn2 := (hlookS n).symm.trans hn
    show (alookup (((diffMerge (sortStr service.virtualHosts.toList)
        ((gsSort newHosts).toList)).2).foldl (addVHStep key)
          (((diffMerge (sortStr service.virtualHosts.toList)
            ((gsSort newHosts).toList)).1).foldl (removeVHStep key) r.vhosts)) h).isSome = true
    rw [hlook h]
    by_cases he : n = key
    · rw [if_pos he] at hn2
      injection hn2 with hn3
      rw [← hn3] at hmem
      have hInNew : h ∈ newHosts.toList := (hmemNew h).mp hmem
      have hNotRm : ¬ h ∈ (diffMerge (sortStr service.virtualHosts.toList)
          ((gsSort newHosts).toList)).1 := fun hin =>
        ((hrm h).mp hin).2 ((hmemN h).mpr hInNew)
      rw [if_neg hNotRm]
      by_cases h2 : h ∈ (diffMerge (sortStr service.virtualHosts.toList)
          ((gsSort newHosts).toList)).2
      · rw [if_pos h2]
        exact addF_isSome key h _
      · rw [if_neg h2]
        have hInOld : h ∈ s0.virtualHosts.toList := by
          by_contra hno
          exact h2 ((had h).mpr ⟨(hmemN h).mpr hInNew, fun hm => hno ((hmemO h).mp hm)⟩)
        exact hInv.listedKey key s0 hs h hInOld
    · rw [if_neg he] at hn2
      have hOld := hInv.listedKey n s hn2 h hmem
      by_cases h1 : h ∈ (diffMerge (sortStr service.virtualHosts.toList)
          ((gsSort newHosts).toList)).1
      · rw [if_pos h1]
        cases hl0 : alookup r.vhosts h with
        | none =>
          rw [hl0] at hOld
          cases hOld
        | some v0 =>
          have hnv0 : n ∈ v0.services := (hInv.vhMem h v0 hl0 n).mpr ⟨s, hn2, hmem⟩
          have hnin : n ∈ (v0.vhRemove key).services := by
            rw [vhRemove_mem v0 key n (hInv.vhSvcsND h v0 hl0)]
            exact ⟨hnv0, he⟩
          have hz : ¬ ((v0.vhRemove key).services.length = 0) := by
            intro hz0
            rw [List.length_eq_zero] at hz0
            rw [hz0] at hnin
            cases hnin
          show (if ((v0.vhRemove key).services.length = 0) then none
            else some (v0.vhRemove key)).isSome = true
          rw [if_neg hz]
          rfl
      · rw [if_neg h1]
        by_cases h2 : h ∈ (diffMerge (sortStr service.virtualHosts.toList)
            ((gsSort newHosts).toList)).2
        · rw [if_pos h2]
          exact addF_isSome key h _
        · rw [if_neg h2]
          exact hOld

/-! ## UpdateService preservation -/

/-- Service.remove leaves name and virtual hosts unchanged. -/
theorem removeBackend_fields (s : Service) (n : String) :
    ((s.removeBackend n).1).name = s.name ∧
    ((s.removeBackend n).1).virtualHosts = s.virtualHosts := by
  rw [Service.removeBackend]
  cases s.backends.findIdx? (fun b => b.name = n) <;> exact ⟨rfl, rfl⟩

/-- One backend-diff step leaves the service's name and virtual hosts
unchanged. -/
theorem backendDiffStep_fields (acc : Service × List BackendConfig) (nb : BackendConfig) :
    ((backendDiffStep acc nb).1).name = acc.1.name ∧
    ((backendDiffStep acc nb).1).virtualHosts = acc.1.virtualHosts := by
  rw [backendDiffStep]
  cases acc.2.find? (fun c => c.name = nb.name) with
  | none =>
    refine ⟨?_, ?_⟩
    · exact (add_name _ _).trans (removeBackend_fields acc.1 nb.name).1
    · exact (add_virtualHosts _ _).trans (removeBackend_fields acc.1 nb.name).2
  | some c =>
    by_cases he : c.Equal nb = true
    · refine ⟨?_, ?_⟩
      · show ((if c.Equal nb = true then (acc.1, _) else _).1).name = acc.1.name
        rw [if_pos he]
      · show ((if c.Equal nb = true then (acc.1, _) else _).1).virtualHosts = acc.1.virtualHosts
        rw [if_pos he]
    · refine ⟨?_, ?_⟩
      · show ((if c.Equal nb = true then (acc.1, _) else
            ((((acc.1.removeBackend nb.name).1).add (NewBackend nb)).1, _)).1).name = acc.1.name
        rw [if_neg he]
        exact (add_name _ _).trans (removeBackend_fields acc.1 nb.name).1
      · show ((if c.Equal nb = true then (acc.1, _) else
            ((((acc.1.removeBackend nb.name).1).add (NewBackend nb)).1, _)).1).virtualHosts =
          acc.1.virtualHosts
        rw [if_neg he]
        exact (add_virtualHosts _ _).trans (removeBackend_fields acc.1 nb.name).2

/-- Folding the backend diff leaves the service's name and virtual
hosts unchanged. -/
theorem foldl_backendDiff_fields :
    ∀ (bs : List BackendConfig) (acc : Service × List BackendConfig),
      ((bs.foldl backendDiffStep acc).1).name = acc.1.name ∧
      ((bs.foldl backendDiffStep acc).1).virtualHosts = acc.1.virtualHosts := by
  intro bs
  induction bs with
  | nil => intro acc; exact ⟨rfl, rfl⟩
  | cons b rest ih =>
    intro acc
    rw [List.foldl_cons]
    exact ⟨(ih _).1.trans (backendDiffStep_fields acc b).1,
      (ih _).2.trans (backendDiffStep_fields acc b).2⟩

/-- Folding backend removals leaves the service's name and virtual
hosts unchanged. -/
theorem foldl_removeB_fields :
    ∀ (bs : List BackendConfig) (s : Service),
      ((bs.foldl (fun svc c => (svc.removeBackend c.name).1) s)).name = s.name ∧
      ((bs.foldl (fun svc c => (svc.removeBackend c.name).1) s)).virtualHosts = s.virtualHosts := by
  intro bs
  induction bs with
  | nil => intro s; exact ⟨rfl, rfl⟩
  | cons b rest ih =>
    intro s
    rw [List.foldl_cons]
    exact ⟨(ih _).1.trans (removeBackend_fields s b.name).1,
      (ih _).2.trans (removeBackend_fields s b.name).2⟩

/-- A successful Service.UpdateConfig leaves name and virtual hosts
unchanged (it only overwrites the mutable tuning fields). -/
theorem updateConfig_ok_fields (s : Service) (cfg : ServiceConfig) (s1 : Service)
    (h : s.updateConfig cfg = .ok s1) :
    s1.name = s.name ∧ s1.virtualHosts = s.virtualHosts := by
  rw [Service.updateConfig] at h
  by_cases h1 : s.clientTimeout ≠ cfg.clientTimeout
  · rw [if_pos h1] at h
    cases h
  · rw [if_neg h1] at h
    by_cases h2 : s.addr ≠ "" ∧ s.addr ≠ cfg.addr
    · rw [if_pos h2] at h
      cases h
    · rw [if_neg h2] at h
      injection h with h4
      refine ⟨?_, ?_⟩
      · rw [← h4]
        simp only [apply_ite Service.name]
        show (if _ then s.name else s.name) = s.name
        rw [ite_self]
      · rw [← h4]
        simp only [apply_ite Service.virtualHosts]
        show (if _ then s.virtualHosts else s.virtualHosts) = s.virtualHosts
        rw [ite_self]

/-- The tail of UpdateService past the Equal check: replace the error
pages if they changed, run updateVHosts, and store the service back
under its key; the invariant is preserved. -/
theorem inv_updateService_else (r : Registry) (hInv : RegInv r) (key : String)
    (s0 : Service) (hs : alookup r.svcs key = some s0)
    (s2 : Service) (hname : s2.name = key) (hvh : s2.virtualHosts = s0.virtualHosts)
    (ep : GoSlice (String × List Int)) (newHosts : GoSlice String)
    (hcleanN : CleanHosts newHosts.toList) :
    RegInv { (r.updateVHosts
        (if ¬ (s2.errPagesCfg = ep) then { s2 with errPagesCfg := ep } else s2) newHosts).1 with
      svcs := aset r.svcs key (r.updateVHosts
        (if ¬ (s2.errPagesCfg = ep) then { s2 with errPagesCfg := ep } else s2) newHosts).2 } := by
  have hname3 : (if ¬ (s2.errPagesCfg = ep) then { s2 with errPagesCfg := ep } else s2).name =
      key := by
    by_cases h : ¬ (s2.errPagesCfg = ep)
    · rw [if_pos h]
      exact hname
    · rw [if_neg h]
      exact hname
  have hvh3 : (if ¬ (s2.errPagesCfg = ep) then { s2 with errPagesCfg := ep } else s2).virtualHosts =
      s0.virtualHosts := by
    by_cases h : ¬ (s2.errPagesCfg = ep)
    · rw [if_pos h]
      exact hvh
    · rw [if_neg h]
      exact hvh
  exact inv_updateVHosts_explicit r hInv key s0 hs
    (if ¬ (s2.errPagesCfg = ep) then { s2 with errPagesCfg := ep } else s2) hname3 hvh3
    newHosts hcleanN
    ((r.updateVHosts
      (if ¬ (s2.errPagesCfg = ep) then { s2 with errPagesCfg := ep } else s2) newHosts).2) rfl

/-- ServiceRegistry.UpdateService preserves the registry invariant, for
updates whose virtual-host list is well formed. -/
theorem inv_updateService (r : Registry) (hInv : RegInv r) (cfg : ServiceConfig)
    (hclean : CleanCfg cfg) : RegInv (r.updateService cfg).1 := by
  cases hl : alookup r.svcs cfg.name with
  | none =>
    have hstate : (r.updateService cfg).1 = r := by
      simp only [Registry.updateService, hl]
    rw [hstate]
    exact hInv
  | some service =>
    cases hu : service.updateConfig ((service.config).Merge cfg) with
    | error e =>
      have hstate : (r.updateService cfg).1 = r := by
        simp only [Registry.updateService, hl, hu]
      rw [hstate]
      exact hInv
    | ok s1 =>
      simp only [Registry.updateService, hl, hu]
      have hmname : ((service.config).Merge cfg).name = cfg.name := mergeEval_name _ _
      have hl2 : alookup r.svcs ((service.config).Merge cfg).name = some service := by
        rw [hmname]
        exact hl
      have h1 := updateConfig_ok_fields service ((service.config).Merge cfg) s1 hu
      obtain ⟨hn3, hv3⟩ := foldl_backendDiff_fields
        ((((service.config).Merge cfg).backends.toList))
        (s1, (service.config).backends.toList)
      obtain ⟨hn2, hv2⟩ := foldl_removeB_fields
        ((((((service.config).Merge cfg).backends.toList)).foldl backendDiffStep
          (s1, (service.config).backends.toList)).2)
        ((((((service.config).Merge cfg).backends.toList)).foldl backendDiffStep
          (s1, (service.config).backends.toList)).1)
      have hName : ((((((service.config).Merge cfg).backends.toList)).foldl backendDiffStep
          (s1, (service.config).backends.toList)).2.foldl
            (fun svc c => (svc.removeBackend c.name).1)
          (((((service.config).Merge cfg).backends.toList)).foldl backendDiffStep
            (s1, (service.config).backends.toList)).1).name =
          ((service.config).Merge cfg).name := by
        rw [hn2, hn3]
        show s1.name = _
        rw [h1.1, hInv.svcName cfg.name service hl, hmname]
      have hVH : ((((((service.config).Merge cfg).backends.toList)).foldl backendDiffStep
          (s1, (service.config).backends.toList)).2.foldl
            (fun svc c => (svc.removeBackend c.name).1)
          (((((service.config).Merge cfg).backends.toList)).foldl backendDiffStep
            (s1, (service.config).backends.toList)).1).virtualHosts = service.virtualHosts := by
        rw [hv2, hv3]
        show s1.virtualHosts = _
        rw [h1.2]
      by_cases hEq : (service.config).Equal ((service.config).Merge cfg) = true
      · rw [if_pos hEq]
        refine inv_aset_svc r hInv ((service.config).Merge cfg).name service _ hl2 ?_ ?_
        · rw [hName, hmname, hInv.svcName cfg.name service hl]
        · exact hVH
      · rw [if_neg hEq]
        have hcleanM : CleanHosts
            ((gsFilterEmpty (((service.config).Merge cfg).virtualHosts)).toList) := by
          rw [gsFilterEmpty_toList]
          apply CleanHosts_filterEmpty
          rw [mergeEval_virtualHosts]
          by_cases hv : cfg.virtualHosts.notNil = true
          · rw [if_pos hv]
            exact hclean
          · rw [if_neg hv]
            exact hInv.svcClean cfg.name service hl
        exact inv_updateService_else r hInv ((service.config).Merge cfg).name service hl2
          _ hName hVH (((service.config).Merge cfg).errorPages)
          (gsFilterEmpty (((service.config).Merge cfg).virtualHosts)) hcleanM

/-! ## Backend operations and reachability -/

/-- ServiceRegistry.AddBackend preserves the registry invariant. -/
theorem inv_addBackend (r : Registry) (hInv : RegInv r) (svcName : String)
    (b : BackendConfig) : RegInv (r.addBackend svcName b).1 := by
  cases hl : alookup r.svcs svcName with
  | none =>
    have hstate : (r.addBackend svcName b).1 = r := by
      simp only [Registry.addBackend, hl]
    rw [hstate]
    exact hInv
  | some service =>
    have hstate : (r.addBackend svcName b).1 =
        { r with svcs := aset r.svcs svcName (service.add (NewBackend b)).1 } := by
      simp only [Registry.addBackend, hl]
    rw [hstate]
    exact inv_aset_svc r hInv svcName service _ hl (add_name service (NewBackend b))
      (add_virtualHosts service (NewBackend b))

/-- ServiceRegistry.RemoveBackend preserves the registry invariant. -/
theorem inv_removeBackendReg (r : Registry) (hInv : RegInv r) (svcName bName : String) :
    RegInv (r.removeBackendReg svcName bName).1 := by
  cases hl : alookup r.svcs svcName with
  | none =>
    have hstate : (r.removeBackendReg svcName bName).1 = r := by
      simp only [Registry.removeBackendReg, hl]
    rw [hstate]
    exact hInv
  | some service =>
    by_cases hb : (service.removeBackend bName).2 = true
    · have hstate : (r.removeBackendReg svcName bName).1 =
          { r with svcs := aset r.svcs svcName (service.removeBackend bName).1 } := by
        simp only [Registry.removeBackendReg, hl, if_pos hb]
      rw [hstate]
      exact inv_aset_svc r hInv svcName service _ hl (removeBackend_fields service bName).1
        (removeBackend_fields service bName).2
    · have hstate : (r.removeBackendReg svcName bName).1 = r := by
        simp only [Registry.removeBackendReg, hl, if_neg hb]
      rw [hstate]
      exact hInv

/-- The registry states reachable from a fresh process through the
service and backend operations.  Add and update carry the well-formed
virtual-host-list hypothesis: with a blank or duplicated virtual-host
name Go's updateVHosts panics on a nil `*VirtualHost` (the removal loop
dereferences `vhost.Len()` for a name that was filtered out of, or
deduplicated in, the table), so no registry state arises from such a
config. -/
inductive Reach : Registry → Prop where
  | init : Reach Registry.empty
  | addS (r : Registry) (cfg : ServiceConfig) (hr : Reach r) (hc : CleanCfg cfg) :
      Reach (r.addService cfg).1
  | updateS (r : Registry) (cfg : ServiceConfig) (hr : Reach r) (hc : CleanCfg cfg) :
      Reach (r.updateService cfg).1
  | removeS (r : Registry) (name : String) (hr : Reach r) :
      Reach (r.removeService name).1
  | addB (r : Registry) (svcName : String) (b : BackendConfig) (hr : Reach r) :
      Reach (r.addBackend svcName b).1
  | removeB (r : Registry) (svcName bName : String) (hr : Reach r) :
      Reach (r.removeBackendReg svcName bName).1

/-- Every reachable registry state satisfies the invariant. -/
theorem reach_inv (r : Registry) (hr : Reach r) : RegInv r := by
  induction hr with
  | init => exact inv_empty
  | addS r cfg _ hc ih => exact inv_addService r ih cfg hc
  | updateS r cfg _ hc ih => exact inv_updateService r ih cfg hc
  | removeS r name _ ih => exact inv_removeService r ih name
  | addB r svcName b _ ih => exact inv_addBackend r ih svcName b
  | removeB r svcName bName _ ih => exact inv_removeBackendReg r ih svcName bName

/-! ## Claim C8: the vhost table tracks the services' VirtualHosts -/

/-- C8: for every reachable registry state, a hostname is a key of the
vhosts table iff at least one registered service lists it in its
VirtualHosts (so after AddService, UpdateService and RemoveService a
virtual host with no remaining referencing service is deleted from the
table), and a successful AddService with that hostname in its config
recreates the key.  Reachability carries the well-formedness hypothesis
on each added or updated config's virtual-host list (no blank names, no
duplicates); outside it Go's updateVHosts panics on a nil virtual-host
pointer instead of maintaining the table. -/
theorem c8_vhost_table_iff (r : Registry) (hr : Reach r) :
    (∀ h, (alookup r.vhosts h).isSome = true ↔
      ∃ n s, alookup r.svcs n = some s ∧ h ∈ s.virtualHosts.toList) ∧
    (∀ h, (∀ n s, alookup r.svcs n = some s → ¬ h ∈ s.virtualHosts.toList) →
      alookup r.vhosts h = none) ∧
    (∀ cfg h, CleanCfg cfg → (r.addService cfg).2 = none →
      h ∈ cfg.virtualHosts.toList →
      (alookup ((r.addService cfg).1).vhosts h).isSome = true) := by
  have hInv := reach_inv r hr
  have hfst : ∀ h, (alookup r.vhosts h).isSome = true ↔
      ∃ n s, alookup r.svcs n = some s ∧ h ∈ s.virtualHosts.toList := by
    intro h
    constructor
    · intro hsome
      rw [Option.isSome_iff_exists] at hsome
      obtain ⟨v, hv⟩ := hsome
      have hne := hInv.vhNE h v hv
      cases hsv : v.services with
      | nil => exact absurd hsv hne
      | cons n rest =>
        have hn : n ∈ v.services := by
          rw [hsv]
          exact List.mem_cons_self n rest
        obtain ⟨s, hs, hm⟩ := (hInv.vhMem h v hv n).mp hn
        exact ⟨n, s, hs, hm⟩
    · intro hex
      obtain ⟨n, s, hs, hm⟩ := hex
      exact hInv.listedKey n s hs h hm
  refine ⟨hfst, ?_, ?_⟩
  · intro h hnone
    cases hv : alookup r.vhosts h with
    | none => rfl
    | some v =>
      exfalso
      have hsome : (alookup r.vhosts h).isSome = true := by
        rw [hv]
        rfl
      obtain ⟨n, s, hs, hm⟩ := (hfst h).mp hsome
      exact hnone n s hs hm
  · intro cfg h hc hok hmem
    cases hl : alookup r.svcs cfg.name with
    | some s =>
      have hbad : (r.addService cfg).2 = some GoErr.duplicateService := by
        simp only [Registry.addService, hl]
      rw [hbad] at hok
      exact Option.noConfusion hok
    | none =>
      by_cases hnet : ((NewService ((r.setServiceDefaults cfg).SetDefaults)).network = "tcp" ∨
          (NewService ((r.setServiceDefaults cfg).SetDefaults)).network = "tcp4" ∨
          (NewService ((r.setServiceDefaults cfg).SetDefaults)).network = "tcp6" ∨
          (NewService ((r.setServiceDefaults cfg).SetDefaults)).network = "udp" ∨
          (NewService ((r.setServiceDefaults cfg).SetDefaults)).network = "udp4" ∨
          (NewService ((r.setServiceDefaults cfg).SetDefaults)).network = "udp6")
      · have hstate : (r.addService cfg).1 = { r with
            svcs := aset r.svcs (NewService ((r.setServiceDefaults cfg).SetDefaults)).name
              (NewService ((r.setServiceDefaults cfg).SetDefaults))
            vhosts := (filterEmpty (((r.setServiceDefaults cfg).SetDefaults).virtualHosts.toList)).foldl
              (addVHStep (NewService ((r.setServiceDefaults cfg).SetDefaults)).name) r.vhosts } := by
          simp only [Registry.addService, hl, if_pos hnet]
        have hInvN : RegInv (r.addService cfg).1 := inv_addService r hInv cfg hc
        have hn : (NewService ((r.setServiceDefaults cfg).SetDefaults)).name = cfg.name :=
          (NewService_name _).trans ((SetDefaults_name _).trans (setServiceDefaults_name r cfg))
        have hvh : (NewService ((r.setServiceDefaults cfg).SetDefaults)).virtualHosts =
            cfg.virtualHosts :=
          (NewService_virtualHosts _).trans
            ((SetDefaults_virtualHosts _).trans (setServiceDefaults_virtualHosts r cfg))
        have hlook : alookup ((r.addService cfg).1).svcs cfg.name =
            some (NewService ((r.setServiceDefaults cfg).SetDefaults)) := by
          rw [hstate, hn]
          show alookup (aset r.svcs cfg.name (NewService ((r.setServiceDefaults cfg).SetDefaults)))
            cfg.name = _
          exact alookup_aset_self _ _ _
        refine hInvN.listedKey cfg.name _ hlook h ?_
        rw [hvh]
        exact hmem
      · have hbad : (r.addService cfg).2 =
            some (GoErr.unknownNetwork (NewService ((r.setServiceDefaults cfg).SetDefaults)).network) := by
          simp only [Registry.addService, hl, if_neg hnet]
        rw [hbad] at hok
        exact Option.noConfusion hok

/-- A concrete config with one virtual host, used to exercise the C8
theorem at a reached registry. -/
def c8cfg : ServiceConfig :=
  { ServiceConfig.zero with
      name := "c8svc"
      addr := "127.0.0.1:9326"
      network := "tcp"
      virtualHosts := some ["c8.example.com"] }

instance (l : List String) : Decidable (CleanHosts l) :=
  inferInstanceAs (Decidable (l.Nodup ∧ ∀ x ∈ l, strBlank x = false))

instance (cfg : ServiceConfig) : Decidable (CleanCfg cfg) :=
  inferInstanceAs (Decidable (CleanHosts cfg.virtualHosts.toList))

/-- Witness for claim C8: at the registry reached by adding `c8cfg` to
the empty registry, the key/listing equivalence holds for the concrete
hostname. -/
theorem c8_vhost_table_iff_witness :
    (alookup (((Registry.empty.addService c8cfg).1).vhosts) ("c8.example.com")).isSome = true ↔
      ∃ n s, alookup (((Registry.empty.addService c8cfg).1).svcs) n = some s ∧
        ("c8.example.com") ∈ s.virtualHosts.toList :=
  (c8_vhost_table_iff ((Registry.empty.addService c8cfg).1)
    (Reach.addS Registry.empty c8cfg Reach.init (by decide))).1 ("c8.example.com")
